import Mathlib

/-
Verification of the GLSL SDF-cylinder shader embedded in
`docs/tutorials/03_shaders/viz_sdf_cylinder.py` and of the list-box callback in
`docs/examples/viz_ui.py`.

Modelling conventions for the shader code: GLSL floats are embedded as exact
real numbers extended with a NaN element (`Option ℝ`, `none` standing for NaN).
Every arithmetic operation propagates NaN; division by zero and square roots of
negative numbers produce NaN; comparisons involving NaN are false, matching
IEEE semantics (overflow to infinity is not modelled — inputs are read as exact
reals).  `pow(x, 2)` is modelled as exact squaring.
-/

set_option maxHeartbeats 1600000

noncomputable section

namespace FurySDF

open Classical

/-- A GLSL float value: `some a` is the finite value `a`, `none` is NaN. -/
def GReal := Option ℝ

/-- Inject a real number as a finite GLSL value. -/
def glift (a : ℝ) : GReal := some a

def gadd : GReal → GReal → GReal
  | some a, some b => some (a + b)
  | _, _ => none

def gsub : GReal → GReal → GReal
  | some a, some b => some (a - b)
  | _, _ => none

def gmul : GReal → GReal → GReal
  | some a, some b => some (a * b)
  | _, _ => none

def gneg : GReal → GReal
  | some a => some (-a)
  | none => none

/-- GLSL division: division by zero yields NaN (0/0 is NaN in IEEE; a nonzero
numerator over zero never occurs in this shader, every denominator being the
length of the numerator). -/
def gdiv : GReal → GReal → GReal
  | some a, some b => if b = 0 then none else some (a / b)
  | _, _ => none

/-- GLSL `sqrt`: NaN on negative input. -/
def gsqrt : GReal → GReal
  | some a => if a < 0 then none else some (Real.sqrt a)
  | none => none

def gabs : GReal → GReal
  | some a => some |a|
  | none => none

def gmin : GReal → GReal → GReal
  | some a, some b => some (min a b)
  | _, _ => none

def gmax : GReal → GReal → GReal
  | some a, some b => some (max a b)
  | _, _ => none

/-- GLSL `clamp(x, lo, hi) = min(max(x, lo), hi)`. -/
def gclamp (x lo hi : GReal) : GReal := gmin (gmax x lo) hi

/-- GLSL `pow(x, 2)` as used in `rotationMatrix`, modelled as exact squaring. -/
def gpow2 : GReal → GReal
  | some a => some (a ^ 2)
  | none => none

/-- GLSL `isnan`. -/
def gisnan (a : GReal) : Prop := a = none

/-- GLSL `<` on floats: any comparison involving NaN is false. -/
def gltP : GReal → GReal → Prop
  | some a, some b => a < b
  | _, _ => False

/-- `a ≤ b` on floats, false if either side is NaN. -/
def gleP : GReal → GReal → Prop
  | some a, some b => a ≤ b
  | _, _ => False

-- Basic simp lemmas for the lifted operations.

@[simp] lemma gadd_lift (a b : ℝ) : gadd (glift a) (glift b) = glift (a + b) := rfl
@[simp] lemma gsub_lift (a b : ℝ) : gsub (glift a) (glift b) = glift (a - b) := rfl
@[simp] lemma gmul_lift (a b : ℝ) : gmul (glift a) (glift b) = glift (a * b) := rfl
@[simp] lemma gneg_lift (a : ℝ) : gneg (glift a) = glift (-a) := rfl
@[simp] lemma gabs_lift (a : ℝ) : gabs (glift a) = glift |a| := rfl
@[simp] lemma gmin_lift (a b : ℝ) : gmin (glift a) (glift b) = glift (min a b) := rfl
@[simp] lemma gmax_lift (a b : ℝ) : gmax (glift a) (glift b) = glift (max a b) := rfl
@[simp] lemma gpow2_lift (a : ℝ) : gpow2 (glift a) = glift (a ^ 2) := rfl
@[simp] lemma gclamp_lift (a lo hi : ℝ) :
    gclamp (glift a) (glift lo) (glift hi) = glift (min (max a lo) hi) := rfl

lemma gdiv_lift {b : ℝ} (a : ℝ) (hb : b ≠ 0) :
    gdiv (glift a) (glift b) = glift (a / b) := by
  simp [gdiv, glift, hb]

@[simp] lemma gdiv_zero_denom (a : ℝ) : gdiv (glift a) (glift 0) = none := by
  simp [gdiv, glift]

lemma gsqrt_lift {a : ℝ} (ha : 0 ≤ a) : gsqrt (glift a) = glift (Real.sqrt a) := by
  simp [gsqrt, glift, not_lt.mpr ha]

@[simp] lemma gadd_none_right (a : GReal) : gadd a none = none := by cases a <;> rfl
@[simp] lemma gadd_none_left (a : GReal) : gadd none a = none := rfl
@[simp] lemma gmul_none_right (a : GReal) : gmul a none = none := by cases a <;> rfl
@[simp] lemma gmul_none_left (a : GReal) : gmul none a = none := rfl
@[simp] lemma gsub_none_right (a : GReal) : gsub a none = none := by cases a <;> rfl
@[simp] lemma gsub_none_left (a : GReal) : gsub none a = none := rfl
@[simp] lemma gdiv_none_right (a : GReal) : gdiv a none = none := by cases a <;> rfl
@[simp] lemma gdiv_none_left (a : GReal) : gdiv none a = none := rfl
@[simp] lemma gsqrt_none : gsqrt none = none := rfl

@[simp] lemma glift_ne_none (a : ℝ) : glift a ≠ none := by simp [glift]

@[simp] lemma gisnan_lift (a : ℝ) : ¬ gisnan (glift a) := by simp [gisnan, glift]

@[simp] lemma gltP_lift (a b : ℝ) : gltP (glift a) (glift b) ↔ a < b := Iff.rfl
@[simp] lemma gleP_lift (a b : ℝ) : gleP (glift a) (glift b) ↔ a ≤ b := Iff.rfl
@[simp] lemma gltP_none_left (a : GReal) : ¬ gltP none a := by cases a <;> exact id
@[simp] lemma gltP_none_right (a : GReal) : ¬ gltP a none := by cases a <;> exact id
@[simp] lemma gleP_none_right (a : GReal) : ¬ gleP a none := by cases a <;> exact id

-- Real-valued 3-vectors (the mathematical reference layer).

/-- A vector of three real numbers. -/
structure RVec3 where
  x : ℝ
  y : ℝ
  z : ℝ

def rv0 : RVec3 := ⟨0, 0, 0⟩

def rvadd (a b : RVec3) : RVec3 := ⟨a.x + b.x, a.y + b.y, a.z + b.z⟩
def rvsub (a b : RVec3) : RVec3 := ⟨a.x - b.x, a.y - b.y, a.z - b.z⟩
def rvsmul (s : ℝ) (a : RVec3) : RVec3 := ⟨s * a.x, s * a.y, s * a.z⟩
def rvdivs (a : RVec3) (s : ℝ) : RVec3 := ⟨a.x / s, a.y / s, a.z / s⟩
def rdot (a b : RVec3) : ℝ := a.x * b.x + a.y * b.y + a.z * b.z
def rcross (a b : RVec3) : RVec3 :=
  ⟨a.y * b.z - a.z * b.y, a.z * b.x - a.x * b.z, a.x * b.y - a.y * b.x⟩
def rlen (a : RVec3) : ℝ := Real.sqrt (a.x * a.x + a.y * a.y + a.z * a.z)
/-- Length of the xz-projection of a vector (GLSL `length(p.xz)`). -/
def rlenXZ (a : RVec3) : ℝ := Real.sqrt (a.x * a.x + a.z * a.z)

lemma rlen_nonneg (a : RVec3) : 0 ≤ rlen a := Real.sqrt_nonneg _

lemma rlen_eq_zero_iff (a : RVec3) : rlen a = 0 ↔ a = rv0 := by
  have h0 : (0:ℝ) ≤ a.x * a.x + a.y * a.y + a.z * a.z := by
    nlinarith [mul_self_nonneg a.x, mul_self_nonneg a.y, mul_self_nonneg a.z]
  constructor
  · intro h
    have hsum : a.x * a.x + a.y * a.y + a.z * a.z = 0 :=
      le_antisymm (Real.sqrt_eq_zero'.mp h) h0
    have hx : a.x = 0 := by nlinarith [mul_self_nonneg a.y, mul_self_nonneg a.z]
    have hy : a.y = 0 := by nlinarith [mul_self_nonneg a.x, mul_self_nonneg a.z]
    have hz : a.z = 0 := by nlinarith [mul_self_nonneg a.x, mul_self_nonneg a.y]
    cases a
    simp_all [rv0]
  · intro h
    rw [h]
    simp [rlen, rv0]

-- GLSL vectors with NaN.

/-- A GLSL `vec3`. -/
structure GVec3 where
  x : GReal
  y : GReal
  z : GReal

/-- A GLSL `vec4`. -/
structure GVec4 where
  x : GReal
  y : GReal
  z : GReal
  w : GReal

/-- Inject a real vector as a finite `vec3`. -/
def liftV (v : RVec3) : GVec3 := ⟨glift v.x, glift v.y, glift v.z⟩

def gvadd (a b : GVec3) : GVec3 := ⟨gadd a.x b.x, gadd a.y b.y, gadd a.z b.z⟩
def gvsub (a b : GVec3) : GVec3 := ⟨gsub a.x b.x, gsub a.y b.y, gsub a.z b.z⟩
def gvsmul (s : GReal) (a : GVec3) : GVec3 := ⟨gmul s a.x, gmul s a.y, gmul s a.z⟩
def gvdivs (a : GVec3) (s : GReal) : GVec3 := ⟨gdiv a.x s, gdiv a.y s, gdiv a.z s⟩
def gvmul (a b : GVec3) : GVec3 := ⟨gmul a.x b.x, gmul a.y b.y, gmul a.z b.z⟩
def gdot (a b : GVec3) : GReal :=
  gadd (gadd (gmul a.x b.x) (gmul a.y b.y)) (gmul a.z b.z)
def gcross (a b : GVec3) : GVec3 :=
  ⟨gsub (gmul a.y b.z) (gmul a.z b.y),
   gsub (gmul a.z b.x) (gmul a.x b.z),
   gsub (gmul a.x b.y) (gmul a.y b.x)⟩
def glength (a : GVec3) : GReal := gsqrt (gdot a a)
def gnormalize (a : GVec3) : GVec3 := gvdivs a (glength a)

@[simp] lemma gvadd_lift (a b : RVec3) : gvadd (liftV a) (liftV b) = liftV (rvadd a b) := rfl
@[simp] lemma gvsub_lift (a b : RVec3) : gvsub (liftV a) (liftV b) = liftV (rvsub a b) := rfl
@[simp] lemma gvsmul_lift (s : ℝ) (a : RVec3) :
    gvsmul (glift s) (liftV a) = liftV (rvsmul s a) := rfl
@[simp] lemma gdot_lift (a b : RVec3) : gdot (liftV a) (liftV b) = glift (rdot a b) := rfl
@[simp] lemma gcross_lift (a b : RVec3) :
    gcross (liftV a) (liftV b) = liftV (rcross a b) := rfl

lemma glength_lift (a : RVec3) : glength (liftV a) = glift (rlen a) := by
  have h : (0:ℝ) ≤ rdot a a := by
    have := mul_self_nonneg a.x
    have := mul_self_nonneg a.y
    have := mul_self_nonneg a.z
    unfold rdot
    nlinarith
  simp only [glength, gdot_lift]
  rw [gsqrt_lift h]
  rfl

lemma gvdivs_lift {s : ℝ} (a : RVec3) (hs : s ≠ 0) :
    gvdivs (liftV a) (glift s) = liftV (rvdivs a s) := by
  simp [gvdivs, liftV, rvdivs, gdiv_lift _ hs]

lemma gnormalize_lift {a : RVec3} (ha : rlen a ≠ 0) :
    gnormalize (liftV a) = liftV (rvdivs a (rlen a)) := by
  rw [gnormalize, glength_lift, gvdivs_lift _ ha]

-- Matrices (GLSL matN is column-major: `mat3(a, b, c)` has columns a, b, c).

/-- A GLSL `mat3`, stored as its three columns. -/
structure GMat3 where
  c0 : GVec3
  c1 : GVec3
  c2 : GVec3

/-- A GLSL `mat4`, stored as its four columns. -/
structure GMat4 where
  c0 : GVec4
  c1 : GVec4
  c2 : GVec4
  c3 : GVec4

/-- `M * v` for a `mat3` (column-major). -/
def gmat3MulVec (M : GMat3) (v : GVec3) : GVec3 :=
  ⟨gadd (gadd (gmul v.x M.c0.x) (gmul v.y M.c1.x)) (gmul v.z M.c2.x),
   gadd (gadd (gmul v.x M.c0.y) (gmul v.y M.c1.y)) (gmul v.z M.c2.y),
   gadd (gadd (gmul v.x M.c0.z) (gmul v.y M.c1.z)) (gmul v.z M.c2.z)⟩

/-- `A * B` for `mat3`. -/
def gmat3Mul (A B : GMat3) : GMat3 :=
  ⟨gmat3MulVec A B.c0, gmat3MulVec A B.c1, gmat3MulVec A B.c2⟩

/-- GLSL `transpose` for `mat3`. -/
def gmat3T (M : GMat3) : GMat3 :=
  ⟨⟨M.c0.x, M.c1.x, M.c2.x⟩, ⟨M.c0.y, M.c1.y, M.c2.y⟩, ⟨M.c0.z, M.c1.z, M.c2.z⟩⟩

/-- GLSL `mat4(s)` for a scalar: the diagonal matrix with `s` on the diagonal. -/
def gmat4Diag (s : GReal) : GMat4 :=
  ⟨⟨s, glift 0, glift 0, glift 0⟩,
   ⟨glift 0, s, glift 0, glift 0⟩,
   ⟨glift 0, glift 0, s, glift 0⟩,
   ⟨glift 0, glift 0, glift 0, s⟩⟩

/-- GLSL `mat4(M)` for a `mat3`: upper-left block `M`, last row/column from the
identity. -/
def gmat4OfMat3 (M : GMat3) : GMat4 :=
  ⟨⟨M.c0.x, M.c0.y, M.c0.z, glift 0⟩,
   ⟨M.c1.x, M.c1.y, M.c1.z, glift 0⟩,
   ⟨M.c2.x, M.c2.y, M.c2.z, glift 0⟩,
   ⟨glift 0, glift 0, glift 0, glift 1⟩⟩

def gdot4 (a b : GVec4) : GReal :=
  gadd (gadd (gmul a.x b.x) (gmul a.y b.y)) (gadd (gmul a.z b.z) (gmul a.w b.w))

/-- `M * v` for a `mat4` (column-major). -/
def gmat4MulVec (M : GMat4) (v : GVec4) : GVec4 :=
  ⟨gadd (gadd (gmul v.x M.c0.x) (gmul v.y M.c1.x)) (gadd (gmul v.z M.c2.x) (gmul v.w M.c3.x)),
   gadd (gadd (gmul v.x M.c0.y) (gmul v.y M.c1.y)) (gadd (gmul v.z M.c2.y) (gmul v.w M.c3.y)),
   gadd (gadd (gmul v.x M.c0.z) (gmul v.y M.c1.z)) (gadd (gmul v.z M.c2.z) (gmul v.w M.c3.z)),
   gadd (gadd (gmul v.x M.c0.w) (gmul v.y M.c1.w)) (gadd (gmul v.z M.c2.w) (gmul v.w M.c3.w))⟩

/-- `v * M` for a `mat4` (row vector times matrix: component i is `dot(v, M[i])`). -/
def gvec4MulMat (v : GVec4) (M : GMat4) : GVec4 :=
  ⟨gdot4 v M.c0, gdot4 v M.c1, gdot4 v M.c2, gdot4 v M.c3⟩

def gvec4OfVec3 (v : GVec3) (w : GReal) : GVec4 := ⟨v.x, v.y, v.z, w⟩
def gvec4xyz (v : GVec4) : GVec3 := ⟨v.x, v.y, v.z⟩
def gvec4Neg (v : GVec4) : GVec4 := ⟨gneg v.x, gneg v.y, gneg v.z, gneg v.w⟩
def gvec4Add (a b : GVec4) : GVec4 :=
  ⟨gadd a.x b.x, gadd a.y b.y, gadd a.z b.z, gadd a.w b.w⟩

/-- `v.x`, `v.y`, `v.z`, `v.w` of a `vec4` are all NaN-free. -/
def gvec4AllFinite (v : GVec4) : Prop :=
  v.x ≠ none ∧ v.y ≠ none ∧ v.z ≠ none ∧ v.w ≠ none

/-- No NaN anywhere in a `mat4`. -/
def gmat4AllFinite (M : GMat4) : Prop :=
  gvec4AllFinite M.c0 ∧ gvec4AllFinite M.c1 ∧ gvec4AllFinite M.c2 ∧ gvec4AllFinite M.c3

/-- GLSL `any(isnan(v))` for a column of a `mat3`. -/
def ganyNan3 (v : GVec3) : Prop := gisnan v.x ∨ gisnan v.y ∨ gisnan v.z

-- The shader source, function by function (from
-- `docs/tutorials/03_shaders/viz_sdf_cylinder.py`, fragment declaration block).

/-- The branch condition `isnan(wn) || wn < 0.0` of `rotationMatrix`, where
`wn = length(cross(u, v))`. -/
def rotGuard (u v : GVec3) : Prop :=
  gisnan (glength (gcross u v)) ∨ gltP (glength (gcross u v)) (glift 0)

/-- The local `w = cross(u, v) / wn` of `rotationMatrix` (after the guard). -/
def rotW2 (u v : GVec3) : GVec3 := gvdivs (gcross u v) (glength (gcross u v))

/-- The local `vp`: `vp = v - dot(u, v) * u` normalized by its own length. -/
def rotVpG (u v : GVec3) : GVec3 :=
  gvdivs (gvsub v (gvsmul (gdot u v) u)) (glength (gvsub v (gvsmul (gdot u v) u)))

/-- The local `Pt = mat3(u, vp, w)`. -/
def rotPtG (u v : GVec3) : GMat3 := ⟨u, rotVpG u v, rotW2 u v⟩

/-- The local `cosa = clamp(dot(u, v), -1, 1)`. -/
def rotCosa (u v : GVec3) : GReal := gclamp (gdot u v) (glift (-1)) (glift 1)

/-- The local `sina = sqrt(1 - pow(cosa, 2))`. -/
def rotSina (u v : GVec3) : GReal := gsqrt (gsub (glift 1) (gpow2 (rotCosa u v)))

/-- The local `R = mat3(mat2(cosa, sina, -sina, cosa))`. -/
def rotRG (u v : GVec3) : GMat3 :=
  ⟨⟨rotCosa u v, rotSina u v, glift 0⟩,
   ⟨gneg (rotSina u v), rotCosa u v, glift 0⟩,
   ⟨glift 0, glift 0, glift 1⟩⟩

/-- The matrix `Rp = Pt * (R * P)` computed on the main path of
`rotationMatrix` (`P = transpose(Pt)`). -/
def rotRpG (u v : GVec3) : GMat3 :=
  gmat3Mul (rotPtG u v) (gmat3Mul (rotRG u v) (gmat3T (rotPtG u v)))

/-- GLSL `rotationMatrix(u, v)`: guard on the cross product, antipodal branch,
main-path rotation `Rp`, and the final NaN check falling back to `mat4(1)`. -/
def rotationMatrix (u v : GVec3) : GMat4 :=
  if rotGuard u v then
    if gltP (glength u) (glength (gvsub u v)) then gmat4Diag (glift (-1))
    else gmat4Diag (glift 1)
  else
    if ganyNan3 (rotRpG u v).c0 ∨ ganyNan3 (rotRpG u v).c1 ∨ ganyNan3 (rotRpG u v).c2 then
      gmat4Diag (glift 1)
    else gmat4OfMat3 (rotRpG u v)

/-- GLSL `length` of a `vec2` given by its two components. -/
def glength2 (a b : GReal) : GReal := gsqrt (gadd (gmul a a) (gmul b b))

/-- GLSL `sdCylinder(p, r, h)`:
`vec2 d = abs(vec2(length(p.xz), p.y)) - vec2(r, h);`
`return min(max(d.x, d.y), 0.0) + length(max(d, 0.0));` -/
def sdCylinder (p : GVec3) (r h : GReal) : GReal :=
  let dx := gsub (gabs (glength2 p.x p.z)) r
  let dy := gsub (gabs p.y) h
  gadd (gmin (gmax dx dy) (glift 0)) (glength2 (gmax dx (glift 0)) (gmax dy (glift 0)))

/-- The constant `vec3(0, 1, 0)` used in `map`. -/
def yAxisG : GVec3 := ⟨glift 0, glift 1, glift 0⟩

/-- GLSL `map(position)`: rotate into the cylinder frame and evaluate the SDF.
The varyings `directionVSOutput`, `centerWCVSOutput`, `radiusVSOutput`,
`heightVSOutput` are explicit parameters. -/
def map (dir center : GVec3) (radius height : GReal) (position : GVec3) : GReal :=
  sdCylinder
    (gvec4xyz (gmat4MulVec (rotationMatrix (gnormalize dir) (gnormalize yAxisG))
      (gvec4OfVec3 (gvsub position center) (glift 0))))
    radius (gdiv height (glift 2))

/-- GLSL `calculateNormal(position)`: central differences of `map` with
`e = vec2(0.001, 0.0)`, normalized. -/
def calculateNormal (dir center : GVec3) (radius height : GReal) (position : GVec3) : GVec3 :=
  let exyy : GVec3 := ⟨glift 0.001, glift 0, glift 0⟩
  let eyxy : GVec3 := ⟨glift 0, glift 0.001, glift 0⟩
  let eyyx : GVec3 := ⟨glift 0, glift 0, glift 0.001⟩
  gnormalize
    ⟨gsub (map dir center radius height (gvadd position exyy))
          (map dir center radius height (gvsub position exyy)),
     gsub (map dir center radius height (gvadd position eyxy))
          (map dir center radius height (gvsub position eyxy)),
     gsub (map dir center radius height (gvadd position eyyx))
          (map dir center radius height (gvsub position eyyx))⟩

/-- The body of the `for` loop of `castRay`, with explicit fuel: each iteration
computes `position = ro + t * rd`, `h = f(position)`, `t += h`, and breaks when
`t > 20.0 || h < 0.001` (the loop locals `position`, `h`, `t'` are inlined). -/
def castRayLoop (f : GVec3 → GReal) (ro rd : GVec3) (t : GReal) : ℕ → GReal
  | 0 => t
  | fuel + 1 =>
    if gltP (glift 20) (gadd t (f (gvadd ro (gvsmul t rd)))) ∨
        gltP (f (gvadd ro (gvsmul t rd))) (glift 0.001) then
      gadd t (f (gvadd ro (gvsmul t rd)))
    else castRayLoop f ro rd (gadd t (f (gvadd ro (gvsmul t rd)))) fuel

/-- GLSL `castRay(ro, rd)`: 4000 iterations of sphere tracing of `map`,
starting from `t = 0.0`. -/
def castRay (dir center : GVec3) (radius height : GReal) (ro rd : GVec3) : GReal :=
  castRayLoop (map dir center radius height) ro rd (glift 0) 4000

-- Specification-side description of sphere tracing (from the spec's words):
-- the sequence of accumulated distances and the early-termination condition.

/-- Accumulated-distance sequence of sphere tracing a field `f`:
`t 0 = 0`, `t (n+1) = t n + f (ro + t n * rd)`. -/
def specT (f : GVec3 → GReal) (ro rd : GVec3) : ℕ → GReal
  | 0 => glift 0
  | n + 1 => gadd (specT f ro rd n) (f (gvadd ro (gvsmul (specT f ro rd n) rd)))

/-- The position visited at step `n` of sphere tracing. -/
def specPos (f : GVec3 → GReal) (ro rd : GVec3) (n : ℕ) : GVec3 :=
  gvadd ro (gvsmul (specT f ro rd n) rd)

/-- Early-termination condition after step `n`: the accumulated distance
exceeds the far bound 20 or the field value dropped below 0.001. -/
def specStopCond (f : GVec3 → GReal) (ro rd : GVec3) (n : ℕ) : Prop :=
  gltP (glift 20) (specT f ro rd (n + 1)) ∨ gltP (f (specPos f ro rd n)) (glift 0.001)

-- The fragment-stage implementation block (`sdf_cylinder_frag_impl`).

/-- GLSL `pow` on floats (used for the specular factor). -/
def gpowf : GReal → GReal → GReal
  | some a, some b => some (Real.rpow a b)
  | _, _ => none

/-- `vec4 ro = -MCVCMatrix[3] * MCVCMatrix` (camera position in world space). -/
def fragRo0 (M : GMat4) : GVec4 := gvec4MulMat (gvec4Neg M.c3) M

/-- `vec3 point = vertexMCVSOutput.xyz`. -/
def fragPoint (vertexMC : GVec4) : GVec3 := gvec4xyz vertexMC

/-- `vec3 rd = normalize(point - ro.xyz)` (ray direction). -/
def fragRd (M : GMat4) (vertexMC : GVec4) : GVec3 :=
  gnormalize (gvsub (fragPoint vertexMC) (gvec4xyz (fragRo0 M)))

/-- `vec3 ld = normalize(ro.xyz - point)` (light direction). -/
def fragLd (M : GMat4) (vertexMC : GVec4) : GVec3 :=
  gnormalize (gvsub (gvec4xyz (fragRo0 M)) (fragPoint vertexMC))

/-- `ro += vec4((point - ro.xyz), 0.0)`: the updated ray origin. -/
def fragRo (M : GMat4) (vertexMC : GVec4) : GVec4 :=
  gvec4Add (fragRo0 M)
    (gvec4OfVec3 (gvsub (fragPoint vertexMC) (gvec4xyz (fragRo0 M))) (glift 0))

/-- The fragment implementation: cast the ray; on a hit (`t < 20.0`) produce the
Blinn-Phong RGBA color `fragOutput0`, otherwise `discard` (`none`). -/
def fragShader (dir center : GVec3) (radius height : GReal) (M : GMat4)
    (vertexMC vertexColor : GVec4)
    (lightColor0 diffuseColor specularColor ambientColor : GVec3)
    (specularPower opacity : GReal) : Option GVec4 :=
  let point := fragPoint vertexMC
  let col := gvec4xyz vertexColor
  let rd := fragRd M vertexMC
  let ld := fragLd M vertexMC
  let ro := fragRo M vertexMC
  let t := castRay dir center radius height (gvec4xyz ro) rd
  if gltP t (glift 20) then
    let position := gvadd (gvec4xyz ro) (gvsmul t rd)
    let norm := calculateNormal dir center radius height position
    let lightAttenuation := gdot ld norm
    let df := gmax (glift 0) lightAttenuation
    let diffuse := gvmul (gvsmul df diffuseColor) lightColor0
    let sf := gpowf df specularPower
    let specular := gvmul (gvsmul sf specularColor) lightColor0
    some (gvec4OfVec3 (gvadd ambientColor (gvadd diffuse specular)) opacity)
  else none

-- The fueled loop agrees with the spec-side sphere-tracing sequence.

lemma castRayLoop_specT_step (f : GVec3 → GReal) (ro rd : GVec3) (k n : ℕ) :
    castRayLoop f ro rd (specT f ro rd k) (n + 1) =
      if specStopCond f ro rd k then specT f ro rd (k + 1)
      else castRayLoop f ro rd (specT f ro rd (k + 1)) n := by
  simp only [castRayLoop]
  exact if_congr Iff.rfl rfl rfl

lemma castRayLoop_specT (f : GVec3 → GReal) (ro rd : GVec3) :
    ∀ fuel k, ∃ j, j ≤ fuel ∧
      castRayLoop f ro rd (specT f ro rd k) fuel = specT f ro rd (k + j) ∧
      (∀ m, k ≤ m → m + 1 < k + j → ¬ specStopCond f ro rd m) ∧
      (j < fuel → ∃ j', j = j' + 1 ∧ specStopCond f ro rd (k + j')) ∧
      (0 < fuel → 0 < j) := by
  intro fuel
  induction fuel with
  | zero =>
    intro k
    exact ⟨0, le_rfl, rfl, fun m hm1 hm2 => absurd hm2 (by omega),
      fun h => absurd h (lt_irrefl 0), fun h => absurd h (lt_irrefl 0)⟩
  | succ n ih =>
    intro k
    rw [castRayLoop_specT_step]
    by_cases hS : specStopCond f ro rd k
    · rw [if_pos hS]
      refine ⟨1, by omega, rfl, fun m hm1 hm2 => absurd hm2 (by omega), ?_,
        fun _ => Nat.one_pos⟩
      intro _
      exact ⟨0, rfl, by simpa using hS⟩
    · rw [if_neg hS]
      obtain ⟨j', hj'le, hres, hnostop, hearly, _⟩ := ih (k + 1)
      refine ⟨j' + 1, by omega, ?_, ?_, ?_, fun _ => by omega⟩
      · rw [hres, show k + 1 + j' = k + (j' + 1) from by omega]
      · intro m hm1 hm2
        rcases eq_or_lt_of_le hm1 with h | hlt
        · rw [← h]
          exact hS
        · exact hnostop m (by omega) (by omega)
      · intro hj
        obtain ⟨j'', hj'', hstop⟩ := hearly (by omega)
        exact ⟨j'' + 1, by omega,
          by rw [show k + (j'' + 1) = k + 1 + j'' from by omega]; exact hstop⟩

/-- C1: `castRay` performs bounded sphere tracing of `map`: its result is the
`n`-th accumulated distance of the sphere-tracing sequence for some `n ≤ 4000`;
no earlier step satisfied the termination test, and if the budget was not
exhausted the last step did (accumulated distance above 20 or field value below
0.001). -/
theorem castRay_sphere_tracing (dir center : GVec3) (radius height : GReal)
    (ro rd : GVec3) :
    ∃ n ≤ 4000,
      castRay dir center radius height ro rd
        = specT (map dir center radius height) ro rd n ∧
      (∀ m, m + 1 < n → ¬ specStopCond (map dir center radius height) ro rd m) ∧
      (n < 4000 → ∃ m, n = m + 1 ∧
        specStopCond (map dir center radius height) ro rd m) := by
  obtain ⟨j, hle, hres, hnostop, hearly, _⟩ :=
    castRayLoop_specT (map dir center radius height) ro rd 4000 0
  rw [show (0 : ℕ) + j = j from by omega] at hres
  refine ⟨j, hle, hres, fun m h2 => hnostop m (by omega) (by omega), fun h => ?_⟩
  obtain ⟨j', hj', hstop⟩ := hearly h
  exact ⟨j', hj', by simpa using hstop⟩

-- Real-level reference form of the cylinder SDF and its sign analysis.

/-- `sdCylinder` written over exact reals (mirrors the GLSL term for term). -/
def realSd (p : RVec3) (r h : ℝ) : ℝ :=
  min (max (|rlenXZ p| - r) (|p.y| - h)) 0
    + Real.sqrt (max (|rlenXZ p| - r) 0 * max (|rlenXZ p| - r) 0
        + max (|p.y| - h) 0 * max (|p.y| - h) 0)

lemma rlenXZ_nonneg (p : RVec3) : 0 ≤ rlenXZ p := Real.sqrt_nonneg _

lemma abs_rlenXZ (p : RVec3) : |rlenXZ p| = rlenXZ p := abs_of_nonneg (rlenXZ_nonneg p)

lemma glength2_lift (a b : ℝ) :
    glength2 (glift a) (glift b) = glift (Real.sqrt (a * a + b * b)) := by
  have h : (0:ℝ) ≤ a * a + b * b := by nlinarith [mul_self_nonneg a, mul_self_nonneg b]
  simp only [glength2, gmul_lift, gadd_lift]
  rw [gsqrt_lift h]

/-- The embedded `sdCylinder` agrees with the real-level form on finite inputs. -/
lemma sdCylinder_lift (p : RVec3) (r h : ℝ) :
    sdCylinder (liftV p) (glift r) (glift h) = glift (realSd p r h) := by
  simp only [sdCylinder, liftV, glength2_lift, gabs_lift, gsub_lift, gmax_lift,
    gmin_lift, gadd_lift, realSd, rlenXZ]

/-- Strictly inside the capped cylinder of radius `r`, half-height `h`. -/
def insideCyl (p : RVec3) (r h : ℝ) : Prop := rlenXZ p < r ∧ |p.y| < h

/-- On the surface of the capped cylinder. -/
def onCylSurface (p : RVec3) (r h : ℝ) : Prop :=
  (rlenXZ p ≤ r ∧ |p.y| ≤ h) ∧ (rlenXZ p = r ∨ |p.y| = h)

/-- Strictly outside the capped cylinder. -/
def outsideCyl (p : RVec3) (r h : ℝ) : Prop := r < rlenXZ p ∨ h < |p.y|

lemma realSd_neg_of_inside {p : RVec3} {r h : ℝ} (hp : insideCyl p r h) :
    realSd p r h < 0 := by
  obtain ⟨h1, h2⟩ := hp
  unfold realSd
  rw [abs_rlenXZ]
  have hdx : rlenXZ p - r < 0 := by linarith
  have hdy : |p.y| - h < 0 := by linarith
  have hmax : max (rlenXZ p - r) (|p.y| - h) < 0 := max_lt hdx hdy
  rw [max_eq_right hdx.le, max_eq_right hdy.le, min_eq_left hmax.le]
  simp [hmax]

lemma realSd_eq_zero_of_on {p : RVec3} {r h : ℝ} (hp : onCylSurface p r h) :
    realSd p r h = 0 := by
  obtain ⟨⟨h1, h2⟩, h3⟩ := hp
  unfold realSd
  rw [abs_rlenXZ]
  have hdx : rlenXZ p - r ≤ 0 := by linarith
  have hdy : |p.y| - h ≤ 0 := by linarith
  have hmax : max (rlenXZ p - r) (|p.y| - h) = 0 := by
    rcases h3 with h3 | h3
    · rw [h3]
      simp [hdy]
    · rw [h3]
      simp [hdx]
  rw [hmax, max_eq_right hdx, max_eq_right hdy]
  simp

lemma realSd_pos_of_outside {p : RVec3} {r h : ℝ} (hp : outsideCyl p r h) :
    0 < realSd p r h := by
  unfold realSd
  rw [abs_rlenXZ]
  have hpos : 0 < max (rlenXZ p - r) 0 * max (rlenXZ p - r) 0
      + max (|p.y| - h) 0 * max (|p.y| - h) 0 := by
    rcases hp with h1 | h1
    · have hdx : 0 < rlenXZ p - r := by linarith
      have : max (rlenXZ p - r) 0 = rlenXZ p - r := max_eq_left hdx.le
      nlinarith [mul_self_nonneg (max (|p.y| - h) 0)]
    · have hdy : 0 < |p.y| - h := by linarith
      have : max (|p.y| - h) 0 = |p.y| - h := max_eq_left hdy.le
      nlinarith [mul_self_nonneg (max (rlenXZ p - r) 0)]
  have hmax : 0 < max (rlenXZ p - r) (|p.y| - h) := by
    rcases hp with h1 | h1
    · exact lt_max_iff.mpr (Or.inl (by linarith))
    · exact lt_max_iff.mpr (Or.inr (by linarith))
  rw [min_eq_right hmax.le]
  have := Real.sqrt_pos.mpr hpos
  linarith

/-- C2: for `r > 0`, `h > 0`, `sdCylinder(p, r, h)` is strictly negative
strictly inside the capped cylinder of radius `r` and half-height `h`, zero on
its surface, and strictly positive strictly outside it. -/
theorem sdCylinder_sign (p : RVec3) (r h : ℝ) (hr : 0 < r) (hh : 0 < h) :
    (insideCyl p r h → gltP (sdCylinder (liftV p) (glift r) (glift h)) (glift 0)) ∧
    (onCylSurface p r h → sdCylinder (liftV p) (glift r) (glift h) = glift 0) ∧
    (outsideCyl p r h → gltP (glift 0) (sdCylinder (liftV p) (glift r) (glift h))) := by
  refine ⟨fun hp => ?_, fun hp => ?_, fun hp => ?_⟩
  · rw [sdCylinder_lift]
    exact (gltP_lift _ _).mpr (realSd_neg_of_inside hp)
  · rw [sdCylinder_lift, realSd_eq_zero_of_on hp]
  · rw [sdCylinder_lift]
    exact (gltP_lift _ _).mpr (realSd_pos_of_outside hp)

/-- Witness for C2 at `p = (0,0,0)`, `r = h = 1` (an interior point; the
hypotheses `0 < r`, `0 < h` and the interior condition are discharged
concretely). -/
theorem sdCylinder_sign_witness :
    (0:ℝ) < 1 ∧ (0:ℝ) < 1 ∧ insideCyl ⟨0, 0, 0⟩ 1 1 ∧
    ((insideCyl ⟨0, 0, 0⟩ 1 1 →
        gltP (sdCylinder (liftV ⟨0, 0, 0⟩) (glift 1) (glift 1)) (glift 0)) ∧
     (onCylSurface ⟨0, 0, 0⟩ 1 1 →
        sdCylinder (liftV ⟨0, 0, 0⟩) (glift 1) (glift 1) = glift 0) ∧
     (outsideCyl ⟨0, 0, 0⟩ 1 1 →
        gltP (glift 0) (sdCylinder (liftV ⟨0, 0, 0⟩) (glift 1) (glift 1)))) :=
  ⟨by norm_num, by norm_num,
   by constructor <;> simp [rlenXZ],
   sdCylinder_sign ⟨0, 0, 0⟩ 1 1 (by norm_num) (by norm_num)⟩

-- Analysis of `rotationMatrix`.

/-- A real 3x3 matrix by columns (reference layer for the rotation pipeline). -/
structure RMat3 where
  c0 : RVec3
  c1 : RVec3
  c2 : RVec3

def rmulVec (M : RMat3) (v : RVec3) : RVec3 :=
  ⟨v.x * M.c0.x + v.y * M.c1.x + v.z * M.c2.x,
   v.x * M.c0.y + v.y * M.c1.y + v.z * M.c2.y,
   v.x * M.c0.z + v.y * M.c1.z + v.z * M.c2.z⟩

def rmatMul (A B : RMat3) : RMat3 := ⟨rmulVec A B.c0, rmulVec A B.c1, rmulVec A B.c2⟩

def rtrans (M : RMat3) : RMat3 :=
  ⟨⟨M.c0.x, M.c1.x, M.c2.x⟩, ⟨M.c0.y, M.c1.y, M.c2.y⟩, ⟨M.c0.z, M.c1.z, M.c2.z⟩⟩

def rclamp (x lo hi : ℝ) : ℝ := min (max x lo) hi

/-- `vp` before normalization: `v - dot(u, v) * u`. -/
def rotVp (u v : RVec3) : RVec3 := rvsub v (rvsmul (rdot u v) u)

/-- The real-level `Pt = mat3(u, vp, w)` of the main path. -/
def rotPtR (u v : RVec3) : RMat3 :=
  ⟨u, rvdivs (rotVp u v) (rlen (rotVp u v)), rvdivs (rcross u v) (rlen (rcross u v))⟩

/-- The real-level rotation block `R`. -/
def rotRR (u v : RVec3) : RMat3 :=
  ⟨⟨rclamp (rdot u v) (-1) 1, Real.sqrt (1 - rclamp (rdot u v) (-1) 1 ^ 2), 0⟩,
   ⟨-Real.sqrt (1 - rclamp (rdot u v) (-1) 1 ^ 2), rclamp (rdot u v) (-1) 1, 0⟩,
   ⟨0, 0, 1⟩⟩

/-- The real-level `Rp = Pt * (R * transpose(Pt))`. -/
def rotRpR (u v : RVec3) : RMat3 :=
  rmatMul (rotPtR u v) (rmatMul (rotRR u v) (rtrans (rotPtR u v)))

/-- Lift a real matrix into the NaN model. -/
def liftM3 (M : RMat3) : GMat3 := ⟨liftV M.c0, liftV M.c1, liftV M.c2⟩

/-- On finite inputs the guard `isnan(wn) || wn < 0.0` is false: the length of
the cross product is a non-negative real. -/
lemma rotGuard_false (u v : RVec3) : ¬ rotGuard (liftV u) (liftV v) := by
  unfold rotGuard
  rw [gcross_lift, glength_lift]
  rintro (h | h)
  · exact gisnan_lift _ h
  · exact absurd ((gltP_lift _ _).mp h) (not_lt.mpr (rlen_nonneg _))

/-- If `cross(u, v) = 0` on finite inputs, the normalized `w` is division of
zero by zero: all NaN. -/
lemma rotW2_collinear {u v : RVec3} (hc : rcross u v = rv0) :
    rotW2 (liftV u) (liftV v) = ⟨none, none, none⟩ := by
  unfold rotW2
  rw [gcross_lift, hc, glength_lift]
  have h0 : rlen rv0 = 0 := by simp [rlen, rv0]
  rw [h0]
  simp [gvdivs, liftV, rv0, gdiv, glift]

/-- With an all-NaN third column, every entry of `Rp` is NaN. -/
lemma rotRpG_collinear {u v : RVec3} (hc : rcross u v = rv0) :
    rotRpG (liftV u) (liftV v)
      = ⟨⟨none, none, none⟩, ⟨none, none, none⟩, ⟨none, none, none⟩⟩ := by
  unfold rotRpG rotPtG
  rw [rotW2_collinear hc]
  simp [gmat3Mul, gmat3MulVec, gmat3T]

/-- Collinear finite inputs make `rotationMatrix` fall through the division by
zero and the NaN check to the identity `mat4(1)`. -/
lemma rot_collinear (u v : RVec3) (hc : rcross u v = rv0) :
    rotationMatrix (liftV u) (liftV v) = gmat4Diag (glift 1) := by
  unfold rotationMatrix
  rw [if_neg (rotGuard_false u v), rotRpG_collinear hc]
  rw [if_pos (Or.inl (show ganyNan3 (⟨none, none, none⟩ : GVec3) from Or.inl rfl))]

/-- C9: for all finite input vectors the guard `isnan(wn) || wn < 0.0` in
`rotationMatrix` is never satisfied (so the antipodal `mat4(-1)` branch is
unreachable), and collinear inputs instead flow through a division by zero
that the final NaN check maps to the identity matrix. -/
theorem rotationMatrix_guard_unreachable (u v : RVec3) :
    ¬ rotGuard (liftV u) (liftV v) ∧
    (rcross u v = rv0 → rotationMatrix (liftV u) (liftV v) = gmat4Diag (glift 1)) :=
  ⟨rotGuard_false u v, rot_collinear u v⟩

lemma rcross_self (u : RVec3) : rcross u u = rv0 := by
  simp only [rcross, rv0, RVec3.mk.injEq]
  refine ⟨by ring, by ring, by ring⟩

/-- C5: aligning a unit vector with itself returns the identity transform
(via the NaN fallback: `cross(u, u) = 0` makes `w = 0/0` NaN, and the NaN
check returns `mat4(1)`). -/
theorem rotationMatrix_self_identity (u : RVec3) (hu : rlen u = 1) :
    rotationMatrix (liftV u) (liftV u) = gmat4Diag (glift 1) :=
  rot_collinear u u (rcross_self u)

/-- Witness for C5 at the unit vector `(0, 1, 0)`. -/
theorem rotationMatrix_self_identity_witness :
    rlen ⟨0, 1, 0⟩ = 1 ∧
    rotationMatrix (liftV ⟨0, 1, 0⟩) (liftV ⟨0, 1, 0⟩) = gmat4Diag (glift 1) :=
  ⟨by norm_num [rlen], rotationMatrix_self_identity ⟨0, 1, 0⟩ (by norm_num [rlen])⟩

lemma gmat4Diag_finite (s : ℝ) : gmat4AllFinite (gmat4Diag (glift s)) := by
  simp [gmat4Diag, gmat4AllFinite, gvec4AllFinite, glift]

/-- C4: on finite inputs `rotationMatrix` returns a matrix with no NaN
entries, and whenever the computed rotation `Rp` contains a NaN it falls back
to the identity matrix. -/
theorem rotationMatrix_no_nan (u v : RVec3) :
    gmat4AllFinite (rotationMatrix (liftV u) (liftV v)) ∧
    ((ganyNan3 (rotRpG (liftV u) (liftV v)).c0 ∨
      ganyNan3 (rotRpG (liftV u) (liftV v)).c1 ∨
      ganyNan3 (rotRpG (liftV u) (liftV v)).c2) →
        rotationMatrix (liftV u) (liftV v) = gmat4Diag (glift 1)) := by
  constructor
  · unfold rotationMatrix
    rw [if_neg (rotGuard_false u v)]
    by_cases h : ganyNan3 (rotRpG (liftV u) (liftV v)).c0 ∨
        ganyNan3 (rotRpG (liftV u) (liftV v)).c1 ∨
        ganyNan3 (rotRpG (liftV u) (liftV v)).c2
    · rw [if_pos h]
      exact gmat4Diag_finite 1
    · rw [if_neg h]
      push_neg at h
      obtain ⟨h0, h1, h2⟩ := h
      simp only [ganyNan3, gisnan, not_or] at h0 h1 h2
      exact ⟨⟨h0.1, h0.2.1, h0.2.2, by simp [gmat4OfMat3, glift]⟩,
             ⟨h1.1, h1.2.1, h1.2.2, by simp [gmat4OfMat3, glift]⟩,
             ⟨h2.1, h2.2.1, h2.2.2, by simp [gmat4OfMat3, glift]⟩,
             by simp [gmat4OfMat3, gvec4AllFinite, glift]⟩
  · intro h
    unfold rotationMatrix
    rw [if_neg (rotGuard_false u v), if_pos h]

-- C3: on the non-degenerate path the returned matrix carries u onto v.

lemma rdot_self_nonneg (u : RVec3) : 0 ≤ rdot u u := by
  unfold rdot
  nlinarith [mul_self_nonneg u.x, mul_self_nonneg u.y, mul_self_nonneg u.z]

lemma rdot_self_of_rlen_one {u : RVec3} (hu : rlen u = 1) : rdot u u = 1 := by
  have h0 : 0 ≤ rdot u u := rdot_self_nonneg u
  have h1 : Real.sqrt (rdot u u) = 1 := hu
  calc rdot u u = Real.sqrt (rdot u u) ^ 2 := (Real.sq_sqrt h0).symm
    _ = 1 := by rw [h1]; norm_num

lemma one_sub_rclamp_sq_nonneg (c : ℝ) : 0 ≤ 1 - rclamp c (-1) 1 ^ 2 := by
  unfold rclamp
  have h1 : min (max c (-1)) 1 ≤ 1 := min_le_right _ _
  have h2 : (-1:ℝ) ≤ min (max c (-1)) 1 :=
    le_min (le_trans (by norm_num) (le_max_right c (-1))) (by norm_num)
  nlinarith

lemma rclamp_eq_of_bounds {c : ℝ} (h1 : -1 ≤ c) (h2 : c ≤ 1) : rclamp c (-1) 1 = c := by
  unfold rclamp
  rw [max_eq_left h1, min_eq_left h2]

lemma rotCosa_lift (u v : RVec3) :
    rotCosa (liftV u) (liftV v) = glift (rclamp (rdot u v) (-1) 1) := by
  unfold rotCosa rclamp
  rw [gdot_lift]
  simp

lemma rotSina_lift (u v : RVec3) :
    rotSina (liftV u) (liftV v)
      = glift (Real.sqrt (1 - rclamp (rdot u v) (-1) 1 ^ 2)) := by
  unfold rotSina
  rw [rotCosa_lift, gpow2_lift, gsub_lift, gsqrt_lift (one_sub_rclamp_sq_nonneg _)]

lemma rotW2_lift (u v : RVec3) (hw : rlen (rcross u v) ≠ 0) :
    rotW2 (liftV u) (liftV v) = liftV (rvdivs (rcross u v) (rlen (rcross u v))) := by
  unfold rotW2
  rw [gcross_lift, glength_lift, gvdivs_lift _ hw]

lemma rotVpG_lift (u v : RVec3) (hvp : rlen (rotVp u v) ≠ 0) :
    rotVpG (liftV u) (liftV v) = liftV (rvdivs (rotVp u v) (rlen (rotVp u v))) := by
  unfold rotVpG
  have h1 : gvsub (liftV v) (gvsmul (gdot (liftV u) (liftV v)) (liftV u))
      = liftV (rotVp u v) := by
    rw [gdot_lift, gvsmul_lift, gvsub_lift]
    rfl
  rw [h1, glength_lift, gvdivs_lift _ hvp]

lemma rotPtG_lift (u v : RVec3) (hw : rlen (rcross u v) ≠ 0)
    (hvp : rlen (rotVp u v) ≠ 0) :
    rotPtG (liftV u) (liftV v) = liftM3 (rotPtR u v) := by
  unfold rotPtG rotPtR liftM3
  rw [rotVpG_lift u v hvp, rotW2_lift u v hw]

lemma rotRG_lift (u v : RVec3) : rotRG (liftV u) (liftV v) = liftM3 (rotRR u v) := by
  unfold rotRG
  rw [rotCosa_lift, rotSina_lift]
  rfl

lemma gmat3T_lift (A : RMat3) : gmat3T (liftM3 A) = liftM3 (rtrans A) := rfl

lemma gmat3MulVec_lift (A : RMat3) (x : RVec3) :
    gmat3MulVec (liftM3 A) (liftV x) = liftV (rmulVec A x) := rfl

lemma gmat3Mul_lift (A B : RMat3) :
    gmat3Mul (liftM3 A) (liftM3 B) = liftM3 (rmatMul A B) := by
  unfold gmat3Mul rmatMul liftM3
  rw [← gmat3MulVec_lift, ← gmat3MulVec_lift, ← gmat3MulVec_lift]
  rfl

lemma rotRpG_lift (u v : RVec3) (hw : rlen (rcross u v) ≠ 0)
    (hvp : rlen (rotVp u v) ≠ 0) :
    rotRpG (liftV u) (liftV v) = liftM3 (rotRpR u v) := by
  unfold rotRpG rotRpR
  rw [rotPtG_lift u v hw hvp, rotRG_lift, gmat3T_lift, gmat3Mul_lift, gmat3Mul_lift]

lemma rmulVec_rtrans (M : RMat3) (x : RVec3) :
    rmulVec (rtrans M) x = ⟨rdot M.c0 x, rdot M.c1 x, rdot M.c2 x⟩ := by
  simp only [rmulVec, rtrans, rdot, RVec3.mk.injEq]
  refine ⟨by ring, by ring, by ring⟩

lemma rmulVec_matMul (A B : RMat3) (x : RVec3) :
    rmulVec (rmatMul A B) x = rmulVec A (rmulVec B x) := by
  simp only [rmatMul, rmulVec, RVec3.mk.injEq]
  refine ⟨by ring, by ring, by ring⟩

lemma rotVp_ne_zero {u v : RVec3} (hc : rcross u v ≠ rv0) : rotVp u v ≠ rv0 := by
  intro h
  apply hc
  have hx : v.x - rdot u v * u.x = 0 := by
    have h1 := congrArg RVec3.x h
    simpa [rotVp, rvsub, rvsmul, rv0, sub_eq_zero] using h1
  have hy : v.y - rdot u v * u.y = 0 := by
    have h1 := congrArg RVec3.y h
    simpa [rotVp, rvsub, rvsmul, rv0, sub_eq_zero] using h1
  have hz : v.z - rdot u v * u.z = 0 := by
    have h1 := congrArg RVec3.z h
    simpa [rotVp, rvsub, rvsmul, rv0, sub_eq_zero] using h1
  simp only [rcross, rv0, RVec3.mk.injEq]
  refine ⟨?_, ?_, ?_⟩
  · linear_combination u.y * hz - u.z * hy
  · linear_combination u.z * hx - u.x * hz
  · linear_combination u.x * hy - u.y * hx

lemma rdot_cross_left (u v : RVec3) : rdot (rcross u v) u = 0 := by
  unfold rdot rcross
  ring

lemma rdot_rotVp_u {u v : RVec3} (hu : rdot u u = 1) : rdot (rotVp u v) u = 0 := by
  have h : rdot (rotVp u v) u = rdot u v * (1 - rdot u u) := by
    unfold rotVp rvsub rvsmul rdot
    ring
  rw [h, hu]
  ring

lemma rotPt_trans_mul_u (u v : RVec3) (hu : rdot u u = 1) :
    rmulVec (rtrans (rotPtR u v)) u = ⟨1, 0, 0⟩ := by
  rw [rmulVec_rtrans]
  simp only [rotPtR, RVec3.mk.injEq]
  refine ⟨hu, ?_, ?_⟩
  · have h1 : rdot (rvdivs (rotVp u v) (rlen (rotVp u v))) u
        = rdot (rotVp u v) u / rlen (rotVp u v) := by
      unfold rdot rvdivs
      ring
    rw [h1, rdot_rotVp_u hu, zero_div]
  · have h1 : rdot (rvdivs (rcross u v) (rlen (rcross u v))) u
        = rdot (rcross u v) u / rlen (rcross u v) := by
      unfold rdot rvdivs
      ring
    rw [h1, rdot_cross_left, zero_div]

lemma rotR_mul_e1 (u v : RVec3) :
    rmulVec (rotRR u v) ⟨1, 0, 0⟩
      = ⟨rclamp (rdot u v) (-1) 1,
         Real.sqrt (1 - rclamp (rdot u v) (-1) 1 ^ 2), 0⟩ := by
  simp only [rotRR, rmulVec, RVec3.mk.injEq]
  refine ⟨by ring, by ring, by ring⟩

lemma rdot_sq_le_one {u v : RVec3} (hu : rdot u u = 1) (hv : rdot v v = 1) :
    rdot u v ^ 2 ≤ 1 := by
  have hlag : rdot u v * rdot u v + rdot (rcross u v) (rcross u v)
      = rdot u u * rdot v v := by
    unfold rdot rcross
    ring
  have hc : 0 ≤ rdot (rcross u v) (rcross u v) := rdot_self_nonneg _
  nlinarith

lemma rclamp_dot {u v : RVec3} (hu : rdot u u = 1) (hv : rdot v v = 1) :
    rclamp (rdot u v) (-1) 1 = rdot u v := by
  have h := rdot_sq_le_one hu hv
  exact rclamp_eq_of_bounds (by nlinarith) (by nlinarith)

lemma rotVp_normSq {u v : RVec3} (hu : rdot u u = 1) (hv : rdot v v = 1) :
    rdot (rotVp u v) (rotVp u v) = 1 - rdot u v ^ 2 := by
  have h : rdot (rotVp u v) (rotVp u v)
      = rdot v v - 2 * rdot u v * rdot u v + rdot u v * rdot u v * rdot u u := by
    unfold rotVp rvsub rvsmul rdot
    ring
  rw [h, hu, hv]
  ring

lemma sina_eq_len {u v : RVec3} (hu : rdot u u = 1) (hv : rdot v v = 1) :
    Real.sqrt (1 - rclamp (rdot u v) (-1) 1 ^ 2) = rlen (rotVp u v) := by
  rw [rclamp_dot hu hv]
  have h : (1 : ℝ) - rdot u v ^ 2 = rdot (rotVp u v) (rotVp u v) :=
    (rotVp_normSq hu hv).symm
  rw [h]
  rfl

lemma rvec3_ext {a b : RVec3} (hx : a.x = b.x) (hy : a.y = b.y) (hz : a.z = b.z) :
    a = b := by
  cases a
  cases b
  simp_all

lemma rotRpR_mulVec (u v : RVec3) (hu : rlen u = 1) (hv : rlen v = 1)
    (hc : rcross u v ≠ rv0) : rmulVec (rotRpR u v) u = v := by
  have huu := rdot_self_of_rlen_one hu
  have hvv := rdot_self_of_rlen_one hv
  have hvp0 : rotVp u v ≠ rv0 := rotVp_ne_zero hc
  have hvpl : rlen (rotVp u v) ≠ 0 := fun h => hvp0 ((rlen_eq_zero_iff _).mp h)
  unfold rotRpR
  rw [rmulVec_matMul, rmulVec_matMul, rotPt_trans_mul_u u v huu, rotR_mul_e1,
    sina_eq_len huu hvv, rclamp_dot huu hvv]
  have hcancel : ∀ a : ℝ, rlen (rotVp u v) * (a / rlen (rotVp u v)) = a := fun a => by
    rw [mul_comm, div_mul_cancel₀ _ hvpl]
  have hvpx : (rotVp u v).x = v.x - rdot u v * u.x := rfl
  have hvpy : (rotVp u v).y = v.y - rdot u v * u.y := rfl
  have hvpz : (rotVp u v).z = v.z - rdot u v * u.z := rfl
  refine rvec3_ext ?_ ?_ ?_ <;>
    simp only [rotPtR, rmulVec, rvdivs, zero_mul, add_zero, hcancel, hvpx, hvpy,
      hvpz] <;> ring

lemma ganyNan3_liftV (w : RVec3) : ¬ ganyNan3 (liftV w) := by
  simp [ganyNan3, liftV, gisnan, glift]

lemma glift_inj {a b : ℝ} : glift a = glift b ↔ a = b := Option.some_inj

lemma gmat4OfMat3_mulVec_lift (M : RMat3) (x : RVec3) :
    gmat4MulVec (gmat4OfMat3 (liftM3 M)) (gvec4OfVec3 (liftV x) (glift 0))
      = gvec4OfVec3 (liftV (rmulVec M x)) (glift 0) := by
  simp only [gmat4MulVec, gmat4OfMat3, liftM3, liftV, gvec4OfVec3, rmulVec]
  simp only [gmul_lift, gadd_lift, GVec4.mk.injEq, glift_inj]
  refine ⟨by ring, by ring, by ring, by ring⟩

/-- C3: for unit vectors `u`, `v` with nonzero cross product, the matrix
returned by `rotationMatrix(u, v)` carries `u` onto `v`. -/
theorem rotationMatrix_maps_u_to_v (u v : RVec3) (hu : rlen u = 1)
    (hv : rlen v = 1) (hc : rcross u v ≠ rv0) :
    gmat4MulVec (rotationMatrix (liftV u) (liftV v)) (gvec4OfVec3 (liftV u) (glift 0))
      = gvec4OfVec3 (liftV v) (glift 0) := by
  have hcw : rlen (rcross u v) ≠ 0 := fun h => hc ((rlen_eq_zero_iff _).mp h)
  have hvp0 : rotVp u v ≠ rv0 := rotVp_ne_zero hc
  have hvpl : rlen (rotVp u v) ≠ 0 := fun h => hvp0 ((rlen_eq_zero_iff _).mp h)
  have hrm : rotationMatrix (liftV u) (liftV v) = gmat4OfMat3 (liftM3 (rotRpR u v)) := by
    unfold rotationMatrix
    rw [if_neg (rotGuard_false u v), rotRpG_lift u v hcw hvpl]
    have hno : ¬ (ganyNan3 (liftM3 (rotRpR u v)).c0 ∨ ganyNan3 (liftM3 (rotRpR u v)).c1 ∨
        ganyNan3 (liftM3 (rotRpR u v)).c2) := by
      rintro (h | h | h) <;> exact ganyNan3_liftV _ h
    rw [if_neg hno]
  rw [hrm, gmat4OfMat3_mulVec_lift, rotRpR_mulVec u v hu hv hc]

/-- Witness for C3 at `u = (1,0,0)`, `v = (0,1,0)`. -/
theorem rotationMatrix_maps_u_to_v_witness :
    rlen ⟨1, 0, 0⟩ = 1 ∧ rlen ⟨0, 1, 0⟩ = 1 ∧
    rcross ⟨1, 0, 0⟩ ⟨0, 1, 0⟩ ≠ rv0 ∧
    gmat4MulVec (rotationMatrix (liftV ⟨1, 0, 0⟩) (liftV ⟨0, 1, 0⟩))
        (gvec4OfVec3 (liftV ⟨1, 0, 0⟩) (glift 0))
      = gvec4OfVec3 (liftV ⟨0, 1, 0⟩) (glift 0) :=
  ⟨by norm_num [rlen], by norm_num [rlen],
   by norm_num [rcross, rv0, RVec3.mk.injEq],
   rotationMatrix_maps_u_to_v ⟨1, 0, 0⟩ ⟨0, 1, 0⟩ (by norm_num [rlen])
     (by norm_num [rlen]) (by norm_num [rcross, rv0, RVec3.mk.injEq])⟩

-- Evaluating `map` for the axis-aligned direction (0, 1, 0): the rotation is
-- the identity (via the NaN fallback) and `map` reduces to the real SDF.

lemma gnormalize_yAxis : gnormalize yAxisG = yAxisG := by
  have h1 : rlen ⟨0, 1, 0⟩ = 1 := by norm_num [rlen]
  have h2 : gnormalize (liftV ⟨0, 1, 0⟩) = liftV (rvdivs ⟨0, 1, 0⟩ (rlen ⟨0, 1, 0⟩)) :=
    gnormalize_lift (by rw [h1]; norm_num)
  rw [show yAxisG = liftV ⟨0, 1, 0⟩ from rfl, h2, h1]
  norm_num [rvdivs, liftV]

lemma gmat4Diag_one_mulVec (p : RVec3) :
    gvec4xyz (gmat4MulVec (gmat4Diag (glift 1)) (gvec4OfVec3 (liftV p) (glift 0)))
      = liftV p := by
  simp only [gmat4Diag, gmat4MulVec, gvec4OfVec3, gvec4xyz, liftV]
  simp only [gmul_lift, gadd_lift, GVec3.mk.injEq, glift_inj]
  refine ⟨by ring, by ring, by ring⟩

/-- For the axis direction `(0, 1, 0)` and finite inputs, `map` is the real
cylinder SDF of the recentered point, with half-height `height / 2`. -/
lemma map_yaxis (c : RVec3) (r H : ℝ) (q : RVec3) :
    map yAxisG (liftV c) (glift r) (glift H) (liftV q)
      = glift (realSd (rvsub q c) r (H / 2)) := by
  unfold map
  rw [gnormalize_yAxis,
    show rotationMatrix yAxisG yAxisG = gmat4Diag (glift 1) from
      rot_collinear ⟨0, 1, 0⟩ ⟨0, 1, 0⟩ (rcross_self _),
    gvsub_lift, gmat4Diag_one_mulVec,
    gdiv_lift H (by norm_num : (2:ℝ) ≠ 0), sdCylinder_lift]

/-- When the axial offset keeps the point away from the caps
(`|p.y| - h ≤ 0` and below the radial offset), the SDF is the radial offset. -/
lemma realSd_eq_dx {p : RVec3} {r h : ℝ} (hdy : |p.y| - h ≤ 0)
    (hle : |p.y| - h ≤ rlenXZ p - r) :
    realSd p r h = rlenXZ p - r := by
  unfold realSd
  rw [abs_rlenXZ]
  by_cases hdx : rlenXZ p - r ≤ 0
  · rw [max_eq_left hle, min_eq_left hdx, max_eq_right hdx, max_eq_right hdy]
    simp
  · push_neg at hdx
    rw [max_eq_left hle, min_eq_right hdx.le, max_eq_left hdx.le, max_eq_right hdy]
    simp [Real.sqrt_mul_self hdx.le]

lemma specT_succ (f : GVec3 → GReal) (ro rd : GVec3) (n : ℕ) :
    specT f ro rd (n + 1) = gadd (specT f ro rd n) (f (specPos f ro rd n)) := rfl

-- C6: a grazing ray along a large cylinder keeps the field at 0.002 (above
-- the 0.001 threshold) yet exhausts the 4000-step budget at distance 8 < 20.

/-- The field of the counterexample configuration: cylinder with axis (0,1,0),
center at the origin, radius 100, height 200. -/
def cexMap : GVec3 → GReal := map yAxisG (liftV ⟨0, 0, 0⟩) (glift 100) (glift 200)

/-- Counterexample ray origin: on the lateral surface side, 0.002 outside. -/
def cexRo : GVec3 := liftV ⟨100.002, 0, 0⟩

/-- Counterexample ray direction: parallel to the cylinder axis. -/
def cexRd : GVec3 := liftV ⟨0, 1, 0⟩

lemma cexMap_eval (t : ℝ) (ht : |t| ≤ 100) :
    cexMap (liftV ⟨100.002, t, 0⟩) = glift 0.002 := by
  unfold cexMap
  rw [map_yaxis]
  rw [glift_inj]
  have hsub : rvsub ⟨100.002, t, 0⟩ ⟨0, 0, 0⟩ = ⟨100.002, t, 0⟩ := by
    simp only [rvsub, RVec3.mk.injEq]
    norm_num
  rw [hsub]
  have hxz : rlenXZ ⟨100.002, t, 0⟩ = 100.002 := by
    unfold rlenXZ
    rw [show ((⟨100.002, t, 0⟩ : RVec3).x * (⟨100.002, t, 0⟩ : RVec3).x
        + (⟨100.002, t, 0⟩ : RVec3).z * (⟨100.002, t, 0⟩ : RVec3).z : ℝ)
        = 100.002 * 100.002 from by norm_num]
    exact Real.sqrt_mul_self (by norm_num)
  have hdy : |(⟨100.002, t, 0⟩ : RVec3).y| - (200:ℝ)/2 ≤ 0 := by
    simp only []
    norm_num
    linarith
  rw [realSd_eq_dx hdy (by rw [hxz]; simp only []; norm_num; linarith), hxz]
  norm_num

lemma cexPos_eval (m : ℕ) (hT : specT cexMap cexRo cexRd m = glift (0.002 * m)) :
    specPos cexMap cexRo cexRd m = liftV ⟨100.002, 0.002 * m, 0⟩ := by
  rw [show specPos cexMap cexRo cexRd m
      = gvadd cexRo (gvsmul (specT cexMap cexRo cexRd m) cexRd) from rfl, hT]
  unfold cexRo cexRd
  rw [gvsmul_lift, gvadd_lift]
  have hvec : rvadd ⟨100.002, 0, 0⟩ (rvsmul (0.002 * m) ⟨0, 1, 0⟩)
      = ⟨100.002, 0.002 * m, 0⟩ := by
    simp only [rvadd, rvsmul, RVec3.mk.injEq]
    norm_num
  rw [hvec]

lemma cex_absBound (m : ℕ) (hm : m ≤ 4000) : |0.002 * (m:ℝ)| ≤ 100 := by
  have h1 : (m:ℝ) ≤ 4000 := by exact_mod_cast hm
  have h2 : (0:ℝ) ≤ 0.002 * m := by positivity
  rw [abs_of_nonneg h2]
  nlinarith

lemma cex_specT (n : ℕ) (hn : n ≤ 4000) :
    specT cexMap cexRo cexRd n = glift (0.002 * n) := by
  induction n with
  | zero =>
    rw [show specT cexMap cexRo cexRd 0 = glift 0 from rfl, glift_inj]
    norm_num
  | succ m ih =>
    have hm : m ≤ 4000 := by omega
    rw [specT_succ, ih hm, cexPos_eval m (ih hm), cexMap_eval _ (cex_absBound m hm),
      gadd_lift, glift_inj]
    push_cast
    ring

lemma cex_noStop (m : ℕ) (hm : m < 4000) : ¬ specStopCond cexMap cexRo cexRd m := by
  have h1 := cex_specT (m + 1) (by omega)
  have h2 := cexPos_eval m (cex_specT m (by omega))
  unfold specStopCond
  rw [h1, h2, cexMap_eval _ (cex_absBound m (by omega))]
  rintro (h | h)
  · have h3 := (gltP_lift _ _).mp h
    have h4 : ((m:ℝ) + 1) ≤ 4000 := by
      have : (m:ℝ) ≤ 3999 := by exact_mod_cast Nat.le_of_lt_succ (by omega)
      linarith
    push_cast at h3
    nlinarith
  · have h3 := (gltP_lift _ _).mp h
    norm_num at h3

/-- Counterexample to C6 as stated: along this ray every one of the 4000
visited positions has field value 0.002 (never below the 0.001 hit threshold,
and all within the far bound), yet `castRay` returns 8, not at least 20 — the
caller reads 8 < 20 as a hit. -/
theorem castRay_far_claim_counterexample :
    (∀ n, n < 4000 →
      gleP (glift 0.001) (cexMap (specPos cexMap cexRo cexRd n))) ∧
    castRay yAxisG (liftV ⟨0, 0, 0⟩) (glift 100) (glift 200) cexRo cexRd = glift 8 ∧
    ¬ ((20:ℝ) ≤ 8) := by
  refine ⟨?_, ?_, by norm_num⟩
  · intro n hn
    rw [cexPos_eval n (cex_specT n (by omega)), cexMap_eval _ (cex_absBound n (by omega))]
    exact (gleP_lift _ _).mpr (by norm_num)
  · obtain ⟨j, hle, hres, hnostop, hearly, _⟩ :=
      castRayLoop_specT cexMap cexRo cexRd 4000 0
    have hj : j = 4000 := by
      rcases Nat.lt_or_ge j 4000 with h | h
      · obtain ⟨j', hj', hstop⟩ := hearly h
        rw [show (0:ℕ) + j' = j' from by omega] at hstop
        exact absurd hstop (cex_noStop j' (by omega))
      · omega
    subst hj
    rw [show (0:ℕ) + 4000 = 4000 from rfl] at hres
    calc castRay yAxisG (liftV ⟨0, 0, 0⟩) (glift 100) (glift 200) cexRo cexRd
        = specT cexMap cexRo cexRd 4000 := hres
      _ = glift (0.002 * (4000:ℕ)) := cex_specT 4000 le_rfl
      _ = glift 8 := by rw [glift_inj]; norm_num

-- C6 amended: a per-step field bound of 0.005 (= 20 / 4000) does force a
-- returned distance of at least 20.

lemma gleP_elim {c : ℝ} {x : GReal} (h : gleP (glift c) x) :
    ∃ v : ℝ, x = glift v ∧ c ≤ v := by
  cases x with
  | none => exact absurd h (gleP_none_right _)
  | some v => exact ⟨v, rfl, h⟩

/-- Amended C6: `castRay` always terminates within its 4000-iteration budget
(it is a total fueled loop), and whenever the field value at every visited
position is at least 0.005, the returned accumulated distance is at least 20,
which callers interpret as "no hit".  (0.001 in the original claim is not
enough: 4000 steps of 0.001 only reach distance 4; see the counterexample.) -/
theorem castRay_min_step_no_hit (dir center : GVec3) (radius height : GReal)
    (ro rd : GVec3)
    (hfield : ∀ n, n < 4000 → gleP (glift 0.005)
      (map dir center radius height
        (specPos (map dir center radius height) ro rd n))) :
    ∃ t : ℝ, castRay dir center radius height ro rd = glift t ∧ 20 ≤ t := by
  have hT : ∀ k, k ≤ 4000 →
      ∃ tv : ℝ, specT (map dir center radius height) ro rd k = glift tv ∧
        0.005 * k ≤ tv := by
    intro k
    induction k with
    | zero => exact fun _ => ⟨0, rfl, by norm_num⟩
    | succ m ih =>
      intro hm
      obtain ⟨tv, htv, hge⟩ := ih (by omega)
      obtain ⟨v, hv, hvge⟩ := gleP_elim (hfield m (by omega))
      refine ⟨tv + v, ?_, ?_⟩
      · rw [specT_succ, htv, hv, gadd_lift]
      · push_cast
        nlinarith
  obtain ⟨j, hle, hres, hnostop, hearly, _⟩ :=
    castRayLoop_specT (map dir center radius height) ro rd 4000 0
  rw [show (0:ℕ) + j = j from by omega] at hres
  obtain ⟨tv, htv, hge⟩ := hT j hle
  rcases Nat.lt_or_ge j 4000 with hj | hj
  · obtain ⟨j', hj', hstop⟩ := hearly hj
    rw [show (0:ℕ) + j' = j' from by omega] at hstop
    subst hj'
    rcases hstop with h | h
    · rw [htv] at h
      have hcast : castRay dir center radius height ro rd
          = specT (map dir center radius height) ro rd (j' + 1) := hres
      exact ⟨tv, by rw [hcast, htv], le_of_lt ((gltP_lift _ _).mp h)⟩
    · obtain ⟨v, hv, hvge⟩ := gleP_elim (hfield j' (by omega))
      rw [hv] at h
      have h1 := (gltP_lift _ _).mp h
      exact absurd h1 (not_lt.mpr (by linarith))
  · have hj4 : j = 4000 := by omega
    subst hj4
    have hcast : castRay dir center radius height ro rd
        = specT (map dir center radius height) ro rd 4000 := hres
    refine ⟨tv, by rw [hcast, htv], ?_⟩
    push_cast at hge
    nlinarith

-- Witness configuration: a small cylinder (radius 1, height 2) with the ray
-- passing at lateral distance 2, so the field is at least 2 everywhere on it.

/-- Witness field: cylinder with axis (0,1,0), center 0, radius 1, height 2. -/
def wMap : GVec3 → GReal := map yAxisG (liftV ⟨0, 0, 0⟩) (glift 1) (glift 2)

/-- Witness ray origin `(3, 0, 0)`. -/
def wRo : GVec3 := liftV ⟨3, 0, 0⟩

/-- Witness ray direction `(0, 1, 0)`. -/
def wRd : GVec3 := liftV ⟨0, 1, 0⟩

lemma wMap_eval (t : ℝ) : wMap (liftV ⟨3, t, 0⟩) = glift (realSd ⟨3, t, 0⟩ 1 1) := by
  unfold wMap
  rw [map_yaxis, glift_inj]
  have hsub : rvsub ⟨3, t, 0⟩ ⟨0, 0, 0⟩ = ⟨3, t, 0⟩ := by
    simp only [rvsub, RVec3.mk.injEq]
    norm_num
  rw [hsub, show (2:ℝ)/2 = 1 from by norm_num]

lemma wSd_ge (t : ℝ) : 2 ≤ realSd ⟨3, t, 0⟩ 1 1 := by
  have hxz : rlenXZ ⟨3, t, 0⟩ = 3 := by
    unfold rlenXZ
    rw [show ((⟨3, t, 0⟩ : RVec3).x * (⟨3, t, 0⟩ : RVec3).x
        + (⟨3, t, 0⟩ : RVec3).z * (⟨3, t, 0⟩ : RVec3).z : ℝ) = 3 * 3 from by norm_num]
    exact Real.sqrt_mul_self (by norm_num)
  unfold realSd
  rw [abs_rlenXZ, hxz]
  dsimp only
  rw [show ((3:ℝ) - 1) = 2 from by norm_num]
  have hminz : min (max (2:ℝ) (|t| - 1)) 0 = 0 :=
    min_eq_right (le_trans (by norm_num) (le_max_left 2 (|t| - 1)))
  rw [hminz, max_eq_left (by norm_num : (0:ℝ) ≤ 2)]
  have hs : Real.sqrt (2 * 2) ≤
      Real.sqrt (2 * 2 + max (|t| - 1) 0 * max (|t| - 1) 0) :=
    Real.sqrt_le_sqrt (by nlinarith [mul_self_nonneg (max (|t| - 1) 0)])
  rw [Real.sqrt_mul_self (by norm_num : (0:ℝ) ≤ 2)] at hs
  linarith

lemma wPos_eval (m : ℕ) (t : ℝ) (hT : specT wMap wRo wRd m = glift t) :
    specPos wMap wRo wRd m = liftV ⟨3, t, 0⟩ := by
  rw [show specPos wMap wRo wRd m
      = gvadd wRo (gvsmul (specT wMap wRo wRd m) wRd) from rfl, hT]
  unfold wRo wRd
  rw [gvsmul_lift, gvadd_lift]
  have hvec : rvadd ⟨3, 0, 0⟩ (rvsmul t ⟨0, 1, 0⟩) = ⟨3, t, 0⟩ := by
    simp only [rvadd, rvsmul, RVec3.mk.injEq]
    norm_num
  rw [hvec]

lemma wT_some : ∀ n : ℕ, ∃ t : ℝ, specT wMap wRo wRd n = glift t := by
  intro n
  induction n with
  | zero => exact ⟨0, rfl⟩
  | succ m ih =>
    obtain ⟨t, ht⟩ := ih
    refine ⟨t + realSd ⟨3, t, 0⟩ 1 1, ?_⟩
    rw [specT_succ, ht, wPos_eval m t ht, wMap_eval, gadd_lift]

lemma wField : ∀ n, n < 4000 → gleP (glift 0.005) (wMap (specPos wMap wRo wRd n)) := by
  intro n _
  obtain ⟨t, ht⟩ := wT_some n
  rw [wPos_eval n t ht, wMap_eval]
  exact (gleP_lift _ _).mpr (le_trans (by norm_num) (wSd_ge t))

/-- Witness for the amended C6 at the concrete configuration above. -/
theorem castRay_min_step_no_hit_witness :
    (∀ n, n < 4000 → gleP (glift 0.005)
      (map yAxisG (liftV ⟨0, 0, 0⟩) (glift 1) (glift 2)
        (specPos (map yAxisG (liftV ⟨0, 0, 0⟩) (glift 1) (glift 2)) wRo wRd n))) ∧
    (∃ t : ℝ, castRay yAxisG (liftV ⟨0, 0, 0⟩) (glift 1) (glift 2) wRo wRd
        = glift t ∧ 20 ≤ t) :=
  ⟨wField, castRay_min_step_no_hit yAxisG (liftV ⟨0, 0, 0⟩) (glift 1) (glift 2)
    wRo wRd wField⟩

-- C7: the fragment writes a color exactly when the ray hit (t < 20).

/-- C7: the fragment stage produces an RGBA output if and only if `castRay`
(at the ray origin and direction the fragment computes) returns an
accumulated distance strictly below the far bound 20.0; otherwise the
fragment is discarded (`none`). -/
theorem frag_writes_iff_hit (dir center : GVec3) (radius height : GReal)
    (M : GMat4) (vertexMC vertexColor : GVec4)
    (lightColor0 diffuseColor specularColor ambientColor : GVec3)
    (specularPower opacity : GReal) :
    fragShader dir center radius height M vertexMC vertexColor lightColor0
        diffuseColor specularColor ambientColor specularPower opacity ≠ none ↔
    gltP (castRay dir center radius height (gvec4xyz (fragRo M vertexMC))
        (fragRd M vertexMC)) (glift 20) := by
  simp only [fragShader]
  by_cases h : gltP (castRay dir center radius height (gvec4xyz (fragRo M vertexMC))
      (fragRd M vertexMC)) (glift 20)
  · rw [if_pos h]
    simp [h]
  · rw [if_neg h]
    simp [h]

-- C8: the estimated normal on the lateral surface.

lemma rlenXZ_mk (x y z : ℝ) : rlenXZ ⟨x, y, z⟩ = Real.sqrt (x * x + z * z) := rfl

/-- Shifting the first coordinate by `t` changes `sqrt(x² + y²)` by at most
`|t|` (one direction of the reverse triangle inequality). -/
lemma sqrt_perturb_le (x y t : ℝ) :
    Real.sqrt (x * x + y * y) ≤ Real.sqrt ((x + t) * (x + t) + y * y) + |t| := by
  have h0 : (0:ℝ) ≤ (x + t) * (x + t) + y * y := by
    nlinarith [mul_self_nonneg (x + t), mul_self_nonneg y]
  have hs : Real.sqrt ((x + t) * (x + t) + y * y) ^ 2 = (x + t) * (x + t) + y * y :=
    Real.sq_sqrt h0
  have habs : |x + t| ≤ Real.sqrt ((x + t) * (x + t) + y * y) := by
    have h1 := Real.sqrt_le_sqrt
      (show (x + t) * (x + t) ≤ (x + t) * (x + t) + y * y by nlinarith [mul_self_nonneg y])
    rwa [Real.sqrt_mul_self_eq_abs] at h1
  have htri : |x| ≤ |x + t| + |t| := by
    have h1 := abs_add (x + t) (-t)
    simpa using h1
  have hR : (0:ℝ) ≤ Real.sqrt ((x + t) * (x + t) + y * y) + |t| := by
    have := Real.sqrt_nonneg ((x + t) * (x + t) + y * y)
    have := abs_nonneg t
    linarith
  have hprod : |x + t| * |t| ≤ Real.sqrt ((x + t) * (x + t) + y * y) * |t| :=
    mul_le_mul_of_nonneg_right habs (abs_nonneg t)
  have hxx : x * x ≤ (x + t) * (x + t) + 2 * (|x + t| * |t|) + t * t := by
    have h2 : |x| * |x| ≤ (|x + t| + |t|) * (|x + t| + |t|) :=
      mul_le_mul htri htri (abs_nonneg x) (by positivity)
    calc x * x = |x| * |x| := (abs_mul_abs_self x).symm
      _ ≤ (|x + t| + |t|) * (|x + t| + |t|) := h2
      _ = |x + t| * |x + t| + 2 * (|x + t| * |t|) + |t| * |t| := by ring
      _ = (x + t) * (x + t) + 2 * (|x + t| * |t|) + t * t := by
          rw [abs_mul_abs_self, abs_mul_abs_self]
  have harg : x * x + y * y ≤ (Real.sqrt ((x + t) * (x + t) + y * y) + |t|) ^ 2 := by
    have htt : |t| * |t| = t * t := abs_mul_abs_self t
    have hexp : (Real.sqrt ((x + t) * (x + t) + y * y) + |t|) ^ 2
        = (x + t) * (x + t) + y * y
          + 2 * (Real.sqrt ((x + t) * (x + t) + y * y) * |t|) + t * t := by
      linear_combination hs + htt
    rw [hexp]
    linarith [hxx, hprod]
  calc Real.sqrt (x * x + y * y)
      ≤ Real.sqrt ((Real.sqrt ((x + t) * (x + t) + y * y) + |t|) ^ 2) :=
        Real.sqrt_le_sqrt harg
    _ = Real.sqrt ((x + t) * (x + t) + y * y) + |t| := Real.sqrt_sq hR

/-- Sign of the central difference of `sqrt((x ± ε)² + y²)`: zero at `x = 0`,
and of the sign of `x` otherwise. -/
lemma mul_sqrt_diff_sign (x y ε : ℝ) (hε : 0 < ε) :
    0 ≤ x * (Real.sqrt ((x + ε) * (x + ε) + y * y)
      - Real.sqrt ((x - ε) * (x - ε) + y * y)) ∧
    (x ≠ 0 → 0 < x * (Real.sqrt ((x + ε) * (x + ε) + y * y)
      - Real.sqrt ((x - ε) * (x - ε) + y * y))) := by
  rcases lt_trichotomy x 0 with h | h | h
  · have hlt : (x + ε) * (x + ε) + y * y < (x - ε) * (x - ε) + y * y := by nlinarith
    have h0 : (0:ℝ) ≤ (x + ε) * (x + ε) + y * y := by
      nlinarith [mul_self_nonneg (x + ε), mul_self_nonneg y]
    have hss := Real.sqrt_lt_sqrt h0 hlt
    exact ⟨by nlinarith, fun _ => by nlinarith⟩
  · subst h
    have heq : ((0:ℝ) - ε) * ((0:ℝ) - ε) + y * y = ((0:ℝ) + ε) * ((0:ℝ) + ε) + y * y := by
      ring
    rw [heq]
    exact ⟨by simp, fun hx => absurd rfl hx⟩
  · have hlt : (x - ε) * (x - ε) + y * y < (x + ε) * (x + ε) + y * y := by nlinarith
    have h0 : (0:ℝ) ≤ (x - ε) * (x - ε) + y * y := by
      nlinarith [mul_self_nonneg (x - ε), mul_self_nonneg y]
    have hss := Real.sqrt_lt_sqrt h0 hlt
    exact ⟨by nlinarith, fun _ => by nlinarith⟩

/-- Normalizing a nonzero vector yields a unit vector. -/
lemma rlen_rvdivs_self {g : RVec3} (h : rlen g ≠ 0) : rlen (rvdivs g (rlen g)) = 1 := by
  have hS : (0:ℝ) ≤ g.x * g.x + g.y * g.y + g.z * g.z := by
    nlinarith [mul_self_nonneg g.x, mul_self_nonneg g.y, mul_self_nonneg g.z]
  have hL : 0 < rlen g := lt_of_le_of_ne (rlen_nonneg g) (Ne.symm h)
  have hLL : rlen g * rlen g = g.x * g.x + g.y * g.y + g.z * g.z :=
    Real.mul_self_sqrt hS
  have harg : (g.x / rlen g) * (g.x / rlen g) + (g.y / rlen g) * (g.y / rlen g)
      + (g.z / rlen g) * (g.z / rlen g) = 1 := by
    field_simp
    linarith [hLL]
  show Real.sqrt _ = 1
  rw [show (rvdivs g (rlen g)).x = g.x / rlen g from rfl]
  rw [show (rvdivs g (rlen g)).y = g.y / rlen g from rfl]
  rw [show (rvdivs g (rlen g)).z = g.z / rlen g from rfl]
  rw [harg, Real.sqrt_one]

lemma gvec3_glift_eq_liftV (A B C : ℝ) :
    (⟨glift A, glift B, glift C⟩ : GVec3) = liftV ⟨A, B, C⟩ := rfl

/-- C8: at a point on the lateral surface of an axis-aligned cylinder
(axis `(0, 1, 0)`), with axial distance from each cap exceeding the 0.001
perturbation epsilon, `calculateNormal` returns a (finite) unit vector that is
perpendicular to the axis and points radially outward. -/
theorem calculateNormal_lateral (c p : RVec3) (r H : ℝ) (hr : 0 < r)
    (hlat : rlenXZ (rvsub p c) = r)
    (hcap : |(rvsub p c).y| + 0.001 < H / 2) :
    ∃ nv : RVec3,
      calculateNormal yAxisG (liftV c) (glift r) (glift H) (liftV p) = liftV nv ∧
      rlen nv = 1 ∧ nv.y = 0 ∧
      0 < rdot nv ⟨(rvsub p c).x, 0, (rvsub p c).z⟩ := by
  rcases hE : rvsub p c with ⟨a, b, d⟩
  rw [hE] at hlat hcap
  dsimp only at hlat hcap ⊢
  have hax : p.x - c.x = a := congrArg RVec3.x hE
  have hay : p.y - c.y = b := congrArg RVec3.y hE
  have haz : p.z - c.z = d := congrArg RVec3.z hE
  -- the six perturbed points, expressed in the cylinder frame
  have hP1 : rvsub (rvadd p ⟨0.001, 0, 0⟩) c = ⟨a + 0.001, b, d⟩ := by
    simp only [rvadd, rvsub, RVec3.mk.injEq]
    refine ⟨by linear_combination hax, by linear_combination hay,
      by linear_combination haz⟩
  have hP2 : rvsub (rvsub p ⟨0.001, 0, 0⟩) c = ⟨a - 0.001, b, d⟩ := by
    simp only [rvsub, RVec3.mk.injEq]
    refine ⟨by linear_combination hax, by linear_combination hay,
      by linear_combination haz⟩
  have hP3 : rvsub (rvadd p ⟨0, 0.001, 0⟩) c = ⟨a, b + 0.001, d⟩ := by
    simp only [rvadd, rvsub, RVec3.mk.injEq]
    refine ⟨by linear_combination hax, by linear_combination hay,
      by linear_combination haz⟩
  have hP4 : rvsub (rvsub p ⟨0, 0.001, 0⟩) c = ⟨a, b - 0.001, d⟩ := by
    simp only [rvsub, RVec3.mk.injEq]
    refine ⟨by linear_combination hax, by linear_combination hay,
      by linear_combination haz⟩
  have hP5 : rvsub (rvadd p ⟨0, 0, 0.001⟩) c = ⟨a, b, d + 0.001⟩ := by
    simp only [rvadd, rvsub, RVec3.mk.injEq]
    refine ⟨by linear_combination hax, by linear_combination hay,
      by linear_combination haz⟩
  have hP6 : rvsub (rvsub p ⟨0, 0, 0.001⟩) c = ⟨a, b, d - 0.001⟩ := by
    simp only [rvsub, RVec3.mk.injEq]
    refine ⟨by linear_combination hax, by linear_combination hay,
      by linear_combination haz⟩
  have hb0 : (0:ℝ) ≤ |b| := abs_nonneg b
  -- field values at the six perturbed points
  have hcomm : ∀ u w : ℝ, Real.sqrt (u * u + w * w) = Real.sqrt (w * w + u * u) :=
    fun u w => by rw [add_comm]
  have hdy0 : |b| - H / 2 ≤ 0 := by linarith
  have hsdx1 : realSd ⟨a + 0.001, b, d⟩ r (H / 2)
      = rlenXZ ⟨a + 0.001, b, d⟩ - r := by
    apply realSd_eq_dx (by dsimp only; linarith)
    have hper := sqrt_perturb_le a d 0.001
    rw [show |(0.001:ℝ)| = 0.001 from by norm_num] at hper
    rw [rlenXZ_mk] at hlat ⊢
    dsimp only
    linarith
  have hsdx2 : realSd ⟨a - 0.001, b, d⟩ r (H / 2)
      = rlenXZ ⟨a - 0.001, b, d⟩ - r := by
    apply realSd_eq_dx (by dsimp only; linarith)
    have hper := sqrt_perturb_le a d (-0.001)
    rw [show a + (-0.001) = a - 0.001 from by ring,
      show |(-0.001:ℝ)| = 0.001 from by norm_num] at hper
    rw [rlenXZ_mk] at hlat ⊢
    dsimp only
    linarith
  have hsdy1 : realSd ⟨a, b + 0.001, d⟩ r (H / 2) = 0 := by
    have habs1 : |b + 0.001| ≤ |b| + 0.001 := by
      calc |b + 0.001| ≤ |b| + |0.001| := abs_add b 0.001
        _ = |b| + 0.001 := by norm_num
    have hxz : rlenXZ ⟨a, b + 0.001, d⟩ = r := hlat
    rw [realSd_eq_dx (by dsimp only; linarith) (by rw [hxz]; dsimp only; linarith),
      hxz, sub_self]
  have hsdy2 : realSd ⟨a, b - 0.001, d⟩ r (H / 2) = 0 := by
    have habs2 : |b - 0.001| ≤ |b| + 0.001 := by
      calc |b - 0.001| = |b + (-0.001)| := congrArg abs (by ring)
        _ ≤ |b| + |(-0.001)| := abs_add b (-0.001)
        _ = |b| + 0.001 := by norm_num
    have hxz : rlenXZ ⟨a, b - 0.001, d⟩ = r := hlat
    rw [realSd_eq_dx (by dsimp only; linarith) (by rw [hxz]; dsimp only; linarith),
      hxz, sub_self]
  have hsdz1 : realSd ⟨a, b, d + 0.001⟩ r (H / 2)
      = rlenXZ ⟨a, b, d + 0.001⟩ - r := by
    apply realSd_eq_dx (by dsimp only; linarith)
    have hper := sqrt_perturb_le d a 0.001
    rw [show |(0.001:ℝ)| = 0.001 from by norm_num, hcomm d a,
      hcomm (d + 0.001) a] at hper
    rw [rlenXZ_mk] at hlat ⊢
    dsimp only
    linarith
  have hsdz2 : realSd ⟨a, b, d - 0.001⟩ r (H / 2)
      = rlenXZ ⟨a, b, d - 0.001⟩ - r := by
    apply realSd_eq_dx (by dsimp only; linarith)
    have hper := sqrt_perturb_le d a (-0.001)
    rw [show d + (-0.001) = d - 0.001 from by ring,
      show |(-0.001:ℝ)| = 0.001 from by norm_num, hcomm d a,
      hcomm (d - 0.001) a] at hper
    rw [rlenXZ_mk] at hlat ⊢
    dsimp only
    linarith
  -- the gradient estimate
  simp only [calculateNormal]
  rw [show (⟨glift 0.001, glift 0, glift 0⟩ : GVec3) = liftV ⟨0.001, 0, 0⟩ from rfl,
    show (⟨glift 0, glift 0.001, glift 0⟩ : GVec3) = liftV ⟨0, 0.001, 0⟩ from rfl,
    show (⟨glift 0, glift 0, glift 0.001⟩ : GVec3) = liftV ⟨0, 0, 0.001⟩ from rfl]
  simp only [gvadd_lift, gvsub_lift, map_yaxis]
  rw [hP1, hP2, hP3, hP4, hP5, hP6, hsdx1, hsdx2, hsdy1, hsdy2, hsdz1, hsdz2]
  simp only [gsub_lift, gvec3_glift_eq_liftV]
  rw [show (⟨(rlenXZ ⟨a + 0.001, b, d⟩ - r) - (rlenXZ ⟨a - 0.001, b, d⟩ - r),
        (0:ℝ) - 0,
        (rlenXZ ⟨a, b, d + 0.001⟩ - r) - (rlenXZ ⟨a, b, d - 0.001⟩ - r)⟩ : RVec3)
      = ⟨rlenXZ ⟨a + 0.001, b, d⟩ - rlenXZ ⟨a - 0.001, b, d⟩, 0,
         rlenXZ ⟨a, b, d + 0.001⟩ - rlenXZ ⟨a, b, d - 0.001⟩⟩ from by
    simp only [RVec3.mk.injEq]
    refine ⟨by ring, by ring, by ring⟩]
  -- outward positivity of the unnormalized gradient
  have hsum : 0 < a * a + d * d := by
    rcases lt_or_eq_of_le (show (0:ℝ) ≤ a * a + d * d from by
      nlinarith [mul_self_nonneg a, mul_self_nonneg d]) with h | h
    · exact h
    · exfalso
      rw [rlenXZ_mk, ← h, Real.sqrt_zero] at hlat
      linarith
  have had : a ≠ 0 ∨ d ≠ 0 := by
    by_contra h
    push_neg at h
    obtain ⟨h1, h2⟩ := h
    rw [h1, h2] at hsum
    norm_num at hsum
  have hout : 0 < a * (rlenXZ ⟨a + 0.001, b, d⟩ - rlenXZ ⟨a - 0.001, b, d⟩)
      + d * (rlenXZ ⟨a, b, d + 0.001⟩ - rlenXZ ⟨a, b, d - 0.001⟩) := by
    rw [rlenXZ_mk, rlenXZ_mk, rlenXZ_mk, rlenXZ_mk]
    rw [hcomm a (d + 0.001), hcomm a (d - 0.001)]
    have h1 := mul_sqrt_diff_sign a d 0.001 (by norm_num)
    have h2 := mul_sqrt_diff_sign d a 0.001 (by norm_num)
    rcases had with h0 | h0
    · have := h1.2 h0
      have := h2.1
      linarith
    · have := h1.1
      have := h2.2 h0
      linarith
  set g : RVec3 := ⟨rlenXZ ⟨a + 0.001, b, d⟩ - rlenXZ ⟨a - 0.001, b, d⟩, 0,
      rlenXZ ⟨a, b, d + 0.001⟩ - rlenXZ ⟨a, b, d - 0.001⟩⟩ with hgdef
  have hgne : rlen g ≠ 0 := by
    intro h0
    have hg0 := (rlen_eq_zero_iff _).mp h0
    rw [hgdef] at hg0
    have hgx := congrArg RVec3.x hg0
    have hgz := congrArg RVec3.z hg0
    dsimp only [rv0] at hgx hgz
    rw [hgx, hgz] at hout
    norm_num at hout
  rw [gnormalize_lift hgne]
  refine ⟨rvdivs g (rlen g), rfl, rlen_rvdivs_self hgne, zero_div _, ?_⟩
  have hL : 0 < rlen g := lt_of_le_of_ne (rlen_nonneg g) (Ne.symm hgne)
  have hcalc : rdot (rvdivs g (rlen g)) ⟨a, 0, d⟩
      = (a * g.x + d * g.z) / rlen g := by
    unfold rdot rvdivs
    dsimp only
    ring
  rw [hcalc]
  apply div_pos _ hL
  rw [hgdef]
  dsimp only
  linarith [hout]

lemma c8w_hlat : rlenXZ (rvsub (⟨1, 0, 0⟩ : RVec3) ⟨0, 0, 0⟩) = 1 := by
  norm_num [rvsub, rlenXZ]

lemma c8w_hcap : |(rvsub (⟨1, 0, 0⟩ : RVec3) ⟨0, 0, 0⟩).y| + 0.001 < 2 / 2 := by
  norm_num [rvsub]

/-- Witness for C8 at the lateral point `(1, 0, 0)` of the unit-radius
cylinder of height 2 centered at the origin. -/
theorem calculateNormal_lateral_witness :
    (0:ℝ) < 1 ∧ rlenXZ (rvsub (⟨1, 0, 0⟩ : RVec3) ⟨0, 0, 0⟩) = 1 ∧
    |(rvsub (⟨1, 0, 0⟩ : RVec3) ⟨0, 0, 0⟩).y| + 0.001 < 2 / 2 ∧
    (∃ nv : RVec3,
      calculateNormal yAxisG (liftV ⟨0, 0, 0⟩) (glift 1) (glift 2)
          (liftV ⟨1, 0, 0⟩) = liftV nv ∧
      rlen nv = 1 ∧ nv.y = 0 ∧
      0 < rdot nv ⟨(rvsub (⟨1, 0, 0⟩ : RVec3) ⟨0, 0, 0⟩).x, 0,
        (rvsub (⟨1, 0, 0⟩ : RVec3) ⟨0, 0, 0⟩).z⟩) :=
  ⟨by norm_num, c8w_hlat, c8w_hcap,
   calculateNormal_lateral ⟨0, 0, 0⟩ ⟨1, 0, 0⟩ 1 2 (by norm_num) c8w_hlat c8w_hcap⟩

end FurySDF

end

namespace FuryUI

/-- The UI elements collected in the `examples` list of `docs/examples/viz_ui.py`
(the cube is a separate scene actor, handled by its own visibility flag). -/
inductive UIElem where
  | rect | disk | ring | img | panel
  | ringSlider | lineSliderX | lineSliderY | rangeSliderX | rangeSliderY
deriving DecidableEq

/-- Visibility state of the scene: one flag per UI element plus the cube. -/
structure UIState where
  vis : UIElem → Bool
  cubeVisible : Bool

/-- `element.set_visibility(b)`. -/
def setVisibility (s : UIState) (e : UIElem) (b : Bool) : UIState :=
  { s with vis := Function.update s.vis e b }

/-- `cube.SetVisibility(b)`. -/
def setCubeVisibility (s : UIState) (b : Bool) : UIState :=
  { s with cubeVisible := b }

/-- The `examples` list: one group of elements per menu entry. -/
def examples : List (List UIElem) :=
  [[.rect], [.disk, .ring], [.img], [.panel],
   [.ringSlider, .lineSliderX, .lineSliderY], [.rangeSliderX, .rangeSliderY]]

/-- The `values` list of list-box labels. -/
def values : List String :=
  ["Rectangle", "Disks", "Image", "Button Panel", "Line & Ring Slider",
   "Range Slider"]

/-- `hide_all_examples()`: set every element of every group invisible, then
hide the cube. -/
def hideAllExamples (s : UIState) : UIState :=
  setCubeVisibility
    (examples.foldl (fun st ex => ex.foldl (fun st' el => setVisibility st' el false) st) s)
    false

/-- `display_element()` for a selected label: hide everything, show the group at
`values.index(label)`, and show the cube exactly when that index is 4. -/
def displayElement (label : String) (s : UIState) : UIState :=
  let s1 := hideAllExamples s
  let idx := values.indexOf label
  let s2 := (examples.getD idx []).foldl (fun st el => setVisibility st el true) s1
  if idx == 4 then setCubeVisibility s2 true else s2

lemma foldl_setVis_vis (g : List UIElem) (b : Bool) (st : UIState) (e : UIElem) :
    (g.foldl (fun st' el => setVisibility st' el b) st).vis e
      = if e ∈ g then b else st.vis e := by
  induction g generalizing st with
  | nil => simp
  | cons hd tl ih =>
    simp only [List.foldl_cons, ih, List.mem_cons]
    by_cases h1 : e ∈ tl
    · simp [h1]
    · by_cases h2 : e = hd <;> simp [h1, h2, setVisibility, Function.update]

lemma foldl_setVis_cube (g : List UIElem) (b : Bool) (st : UIState) :
    (g.foldl (fun st' el => setVisibility st' el b) st).cubeVisible = st.cubeVisible := by
  induction g generalizing st with
  | nil => rfl
  | cons hd tl ih => rw [List.foldl_cons, ih]; rfl

lemma hideAll_vis (s : UIState) (e : UIElem) : (hideAllExamples s).vis e = false := by
  simp only [hideAllExamples, examples, List.foldl_cons, List.foldl_nil,
    setCubeVisibility]
  cases e <;> simp [setVisibility, Function.update]

lemma hideAll_cube (s : UIState) : (hideAllExamples s).cubeVisible = false := rfl

lemma displayElement_vis (label : String) (s : UIState) (e : UIElem) :
    (displayElement label s).vis e
      = if e ∈ examples.getD (values.indexOf label) [] then true else false := by
  unfold displayElement
  by_cases h : values.indexOf label == 4 <;>
    simp [h, setCubeVisibility, foldl_setVis_vis, hideAll_vis]

lemma displayElement_cube (label : String) (s : UIState) :
    (displayElement label s).cubeVisible = (values.indexOf label == 4) := by
  unfold displayElement
  by_cases h : values.indexOf label == 4 <;>
    simp [h, setCubeVisibility, foldl_setVis_cube, hideAll_cube]

/-- C10: after `display_element` runs for any selected label, every element of
every example group other than the selected one is invisible, every element of
the selected group is visible, and the cube is visible exactly when the
selected label is the one at index 4, "Line & Ring Slider". -/
theorem displayElement_visibility (label : String) (s : UIState) (hmem : label ∈ values) :
    (∀ g ∈ examples, g ≠ examples.getD (values.indexOf label) [] →
        ∀ e ∈ g, (displayElement label s).vis e = false) ∧
    (∀ e ∈ examples.getD (values.indexOf label) [], (displayElement label s).vis e = true) ∧
    ((displayElement label s).cubeVisible = true ↔ label = "Line & Ring Slider") := by
  fin_cases hmem <;>
    simp only [displayElement_vis, displayElement_cube] <;> decide

/-- Witness for C10 at the concrete label "Rectangle" and a fully-visible
initial state. -/
theorem displayElement_visibility_witness :
    ("Rectangle" ∈ values) ∧
    ((∀ g ∈ examples, g ≠ examples.getD (values.indexOf "Rectangle") [] →
        ∀ e ∈ g, (displayElement "Rectangle" ⟨fun _ => true, true⟩).vis e = false) ∧
    (∀ e ∈ examples.getD (values.indexOf "Rectangle") [],
        (displayElement "Rectangle" ⟨fun _ => true, true⟩).vis e = true) ∧
    ((displayElement "Rectangle" ⟨fun _ => true, true⟩).cubeVisible = true ↔
        "Rectangle" = "Line & Ring Slider")) :=
  ⟨by decide, displayElement_visibility "Rectangle" ⟨fun _ => true, true⟩ (by decide)⟩

end FuryUI
